import Mathlib

/-!
# flow-go: ledger proof verification, HotStuff signature types and block proposals

A shallow embedding of

* `ledger/verifier/proof.go` (`VerifyProof`, `VerifyBatchProof`),
* `consensus/hotstuff/signature.go` (`SigType`, the aggregator and packer contracts),
* `engine/consensus/hotstuff/types/block_header.go` and `block_proposal.go`,
* `data/state.go` (`WorldState`),
* `cmd/util/cmd/common/flow_client.go` (`convertAccessAddrFromState`).

Byte slices are lists of naturals, Go `int` is `Int` with an explicit two's-complement
wrap to 64 bits, a pointer that may be nil is an `Option`, and an early `return false`
or a run-time panic is an explicit `none`.
-/

/-- A Go byte slice. `bytes.Equal` is equality of the lists (nil and empty are equal). -/
abbrev Bytes := List Nat

/-- The value of a Go `int` (64 bits, two's complement) after an arithmetic operation
whose mathematical result is `x`. -/
def wrapInt (x : Int) : Int := (x + 2 ^ 63) % 2 ^ 64 - 2 ^ 63

namespace Verifier

/-- The `Proof` record read by `VerifyProof`: `Values`, `Inclusion`, `Flags` and the
counter `Steps`, an unsigned machine integer (below `2^64`). -/
structure Proof where
  Values : List Bytes
  Inclusion : Bool
  Flags : Bytes
  Steps : Nat
deriving DecidableEq, Repr

/-- The functions of the packages `ledger/outright/mtrie/common` and `ledger/utils` that
`VerifyProof` calls; their bodies are not part of the sources, so they are parameters. -/
structure TrieOps (Payload : Type) where
  ComputeCompactValue : Bytes → Payload → Int → Bytes
  GetDefaultHashForHeight : Int → Bytes
  HashInterNode : Bytes → Bytes → Bytes
  IsBitSet : Bytes → Int → Bool

/-- The `for h := leafHeight + 1; h <= treeHeight; h++` loop of `VerifyProof`, entered with
the current `h`, `proofIndex` and `computed`. The result is `none` when the loop body
executes `return false` (too few values) and `some computed` when the loop condition fails.
`p.Values[proofIndex]` is read only when `0 ≤ proofIndex`, and `proofIndex` never exceeds
`len(p.Values) - 1`. `h` stays below `2^63 - 1` because `treeHeight` is a multiple of 8, so
`h++` does not wrap. -/
def verifyLoop {Payload : Type} (ops : TrieOps Payload) (p : Proof) (path : Bytes)
    (treeHeight : Int) (h : Int) (proofIndex : Int) (computed : Bytes) : Option Bytes :=
  if h ≤ treeHeight then
    if ops.IsBitSet p.Flags (treeHeight - h) then
      if proofIndex < 0 then
        none
      else
        let siblingHash := p.Values.getD proofIndex.toNat []
        verifyLoop ops p path treeHeight (h + 1) (proofIndex - 1)
          (if ops.IsBitSet path (treeHeight - h) then ops.HashInterNode siblingHash computed
           else ops.HashInterNode computed siblingHash)
    else
      let siblingHash := ops.GetDefaultHashForHeight (h - 1)
      verifyLoop ops p path treeHeight (h + 1) proofIndex
        (if ops.IsBitSet path (treeHeight - h) then ops.HashInterNode siblingHash computed
         else ops.HashInterNode computed siblingHash)
  else
    some computed
termination_by (treeHeight + 1 - h).toNat
decreasing_by all_goals (simp_wf; omega)

/-- The tree height `8 * expectedKeySize` as the Go `int` computes it. -/
def treeHeightOf (expectedKeySize : Int) : Int := wrapInt (8 * expectedKeySize)

/-- The leaf height `treeHeight - int(p.Steps)` as the Go `int` computes it; the
conversion `int(p.Steps)` changes the value only when `p.Steps` is `2^63` or more. -/
def leafHeightOf (p : Proof) (expectedKeySize : Int) : Int :=
  wrapInt (treeHeightOf expectedKeySize - wrapInt p.Steps)

/-- The function `VerifyProof` of `ledger/verifier/proof.go`. -/
def VerifyProof {Payload : Type} (ops : TrieOps Payload) (p : Proof) (path : Bytes)
    (payload : Payload) (expectedRootHash : Bytes) (expectedKeySize : Int) : Bool :=
  let treeHeight := treeHeightOf expectedKeySize
  let leafHeight := leafHeightOf p expectedKeySize
  if !(decide (0 ≤ leafHeight) && decide (leafHeight ≤ treeHeight)) then
    false
  else
    let proofIndex : Int := (p.Values.length : Int) - 1
    let computed := ops.ComputeCompactValue path payload leafHeight
    match verifyLoop ops p path treeHeight (leafHeight + 1) proofIndex computed with
    | none => false
    | some computed => decide (computed = expectedRootHash) == p.Inclusion

/-- The number of flag bits set among the positions `0 .. n-1` of `p.Flags`. -/
def setFlags {Payload : Type} (ops : TrieOps Payload) (p : Proof) (n : Nat) : Nat :=
  (List.range n).countP (fun (i : Nat) => ops.IsBitSet p.Flags (i : Int))

/-- One step of the recomputation as the contract words it, at bit index `i`: the state is
the current value and the values of the proof not yet used, last one first. The sibling is
the next unused value when flag bit `i` is set and the default hash of the current height
`treeHeight - i - 1` otherwise. -/
def climbStep {Payload : Type} (ops : TrieOps Payload) (p : Proof) (path : Bytes)
    (treeHeight : Int) (st : Bytes × List Bytes) (i : Nat) : Bytes × List Bytes :=
  let flagged := ops.IsBitSet p.Flags (i : Int)
  let sibling := if flagged then st.2.headD [] else
    ops.GetDefaultHashForHeight (treeHeight - (i : Int) - 1)
  let unused := if flagged then st.2.tail else st.2
  (if ops.IsBitSet path (i : Int) then ops.HashInterNode sibling st.1
   else ops.HashInterNode st.1 sibling, unused)

/-- The root recomputed from the leaf as the contract words it: start from the compact
value of the leaf and take one `climbStep` for each bit index from `p.Steps - 1` down
to `0`. -/
def recomputedRoot {Payload : Type} (ops : TrieOps Payload) (p : Proof) (path : Bytes)
    (payload : Payload) (expectedKeySize : Int) : Bytes :=
  ((List.range p.Steps).reverse.foldl
    (climbStep ops p path (treeHeightOf expectedKeySize))
    (ops.ComputeCompactValue path payload (treeHeightOf expectedKeySize - (p.Steps : Int)),
      p.Values.reverse)).1

/-- Sample trie operations on which the statements below are evaluated: the compact value
of a leaf is the path, the payload and the height in one slice, the default hash of a
height is that height, an inner node is the concatenation of its children, and bit `i` of
a slice is bit `7 - i % 8` of byte `i / 8`. -/
def sampleOps : TrieOps Bytes where
  ComputeCompactValue := fun path payload height => path ++ payload ++ [height.toNat]
  GetDefaultHashForHeight := fun height => [height.toNat]
  HashInterNode := fun left right => left ++ right
  IsBitSet := fun b i => decide (b.getD (i / 8).toNat 0 / 2 ^ (7 - (i % 8).toNat) % 2 = 1)

/-- A sample proof of three steps whose flags `0xA0 = 1010 0000` mark the bit positions
0 and 2 as having a stored sibling. -/
def sampleProof : Proof where
  Values := [[11], [22]]
  Inclusion := true
  Flags := [0xA0]
  Steps := 3

/-- The sample proof with the last stored value removed: one value for two flags. -/
def shortProof : Proof where
  Values := [[11]]
  Inclusion := false
  Flags := [0xA0]
  Steps := 3

/-- The `BatchProof` record read by `VerifyBatchProof`: the list of its proofs. -/
structure BatchProof where
  Proofs : List Proof
deriving DecidableEq, Repr

/-- The `for i, p := range bp.Proofs` loop of `VerifyBatchProof`, entered at index `i` with
the proofs still to visit. `Verify` is the method `p.Verify` of `Proof`, which is not part
of the sources and is therefore a parameter. Reading `paths[i]` or `payloads[i]` past the
end of the slice is a run-time panic, `none`. -/
def verifyBatchLoop {Payload : Type} (Verify : Proof → Bytes → Payload → Bytes → Int → Bool)
    (paths : List Bytes) (payloads : List Payload) (expectedRootHash : Bytes)
    (expectedKeySize : Int) : Nat → List Proof → Option Bool
  | _, [] => some true
  | i, p :: rest =>
    match paths[i]?, payloads[i]? with
    | some path, some payload =>
      if !Verify p path payload expectedRootHash expectedKeySize then
        some false
      else
        verifyBatchLoop Verify paths payloads expectedRootHash expectedKeySize (i + 1) rest
    | _, _ => none

/-- The function `VerifyBatchProof` of `ledger/verifier/proof.go`. -/
def VerifyBatchProof {Payload : Type} (Verify : Proof → Bytes → Payload → Bytes → Int → Bool)
    (bp : BatchProof) (paths : List Bytes) (payloads : List Payload)
    (expectedRootHash : Bytes) (expectedKeySize : Int) : Option Bool :=
  verifyBatchLoop Verify paths payloads expectedRootHash expectedKeySize 0 bp.Proofs

/-- A sample batch of two proofs: the sample proof and the one with a value missing. -/
def sampleBatch : BatchProof where
  Proofs := [sampleProof, shortProof]

end Verifier

namespace Hotstuff

/-- The declaration `type SigType int`: the aggregable signature type is a Go `int`. -/
abbrev SigType := Int

/-- The constant `SigTypeStaking SigType = iota`, the first of its block. -/
def SigTypeStaking : SigType := 0

/-- The constant `SigTypeRandomBeacon`, the second of the `iota` block. -/
def SigTypeRandomBeacon : SigType := 1

/-- The constant `SigTypeInvalid`, the third of the `iota` block. -/
def SigTypeInvalid : SigType := 2

/-- The type `flow.Identifier`, the identifier of a committee member: a byte string
(32 bytes in the protocol) whose order is the raw byte order. -/
abbrev Identifier := Bytes

/-- Raw byte order on identifiers, strict: the first differing byte decides, and a proper
prefix comes first. -/
def idLT : Identifier → Identifier → Bool
  | _, [] => false
  | [], _ :: _ => true
  | a :: as, b :: bs => decide (a < b) || (decide (a = b) && idLT as bs)

/-- Raw byte order on identifiers, non-strict. -/
def idLE (a b : Identifier) : Bool := !idLT b a

/-- Sorting a list of identifiers ascending by raw byte order. -/
def sortIDs (ids : List Identifier) : List Identifier :=
  ids.insertionSort (fun a b => idLE a b = true)

/-- Modelled from the spec: the error kinds of the aggregators (section 7); the sources
declare no error values for the interfaces. -/
inductive AggError where
  | UnknownSigner
  | DuplicateSigner
  | InvalidSignature
  | InvalidSigType
  | InsufficientWeight
  | InsufficientShares
  | InvalidAggregate
  | InvalidReconstruction
  | AlreadyAggregated
deriving DecidableEq, Repr

/-- Modelled from the spec: the record `WeightedKey` of the data model (section 3), signer,
public key and weight; the sources do not declare it. -/
structure WeightedKey where
  signerID : Identifier
  publicKey : Bytes
  weight : Nat
deriving DecidableEq, Repr

/-- Modelled from the spec: the record `BeaconKeyShare` of the data model (section 3),
signer, threshold public key share and index; the sources do not declare it. -/
structure BeaconKeyShare where
  signerID : Identifier
  keyShare : Bytes
  index : Nat
deriving DecidableEq, Repr

/-- Modelled from the spec: the cryptographic primitives behind the capability interface of
the design notes (section 9), which the sources do not hold, taken as parameters:
aggregation of signatures, and verification of an aggregate against a list of public keys
and the agreed message. -/
structure Crypto where
  aggregateSignatures : List Bytes → Bytes
  verifyAggregate : List Bytes → Bytes → Bytes → Bool

/-- Modelled from the spec: the states of the staking aggregator, which the sources do not
hold (state machine of section 4.2): `Accepting`, the terminal `Aggregated` with the result
it caches, and the terminal `Failed`. (`Aggregating` is only held while a call of
`aggregate` runs.) -/
inductive AggPhase where
  | Accepting
  | Aggregated (signerIDs : List Identifier) (aggregate : Bytes)
  | Failed
deriving DecidableEq, Repr

/-- Modelled from the spec: the state of an implementation of the interface
`WeightedSignatureAggregator`, of which the sources hold the interface only. The state is
the immutable registry, the agreed message, the weight threshold, the accumulator of shares
(in arrival order), the weight counter and the phase of the state machine (section 4.2). -/
structure WeightedSignatureAggregator where
  registry : List WeightedKey
  message : Bytes
  threshold : Nat
  shares : List (Identifier × Bytes)
  totalWeight : Nat
  phase : AggPhase
deriving DecidableEq, Repr

namespace WeightedSignatureAggregator

/-- Modelled from the spec: a fresh aggregator, constructed at view entry with a registry,
an agreed message and a threshold; nothing is collected yet. -/
def new (registry : List WeightedKey) (message : Bytes) (threshold : Nat) :
    WeightedSignatureAggregator :=
  { registry := registry, message := message, threshold := threshold, shares := [],
    totalWeight := 0, phase := AggPhase.Accepting }

/-- Modelled from the spec: `lookup(signerID)` of the signer registry (section 4.1). -/
def lookup (s : WeightedSignatureAggregator) (signerID : Identifier) : Option WeightedKey :=
  s.registry.find? (fun k => decide (k.signerID = signerID))

/-- The signers that have contributed a signature. -/
def signers (s : WeightedSignatureAggregator) : List Identifier :=
  s.shares.map Prod.fst

/-- Modelled from the spec: `TotalWeight()`, a snapshot of the weight counter. -/
def TotalWeight (s : WeightedSignatureAggregator) : Nat := s.totalWeight

/-- Whether a successful `aggregate` has taken place: the phase is `Aggregated`. -/
def aggregated (s : WeightedSignatureAggregator) : Bool :=
  match s.phase with
  | AggPhase.Aggregated _ _ => true
  | _ => false

/-- Modelled from the spec: `TrustedAdd` of an implementation of
`WeightedSignatureAggregator` (sections 4.2 and 5); the sources hold the interface only.
After a successful `aggregate` every call returns `AlreadyAggregated` and does not mutate
the state (section 5). Before that it fails with `DuplicateSigner` if the signer already
contributed and with `UnknownSigner` if the signer is not in the registry; otherwise it
stores the share and adds the weight. A failed call adds no weight: the contract comment of
the interface can be read either way, and the specification settles it so (section 9). The
weight returned is that of the state after the call. The result is the new state, the
returned total weight and the returned error. -/
def TrustedAdd (s : WeightedSignatureAggregator) (signerID : Identifier) (sig : Bytes) :
    WeightedSignatureAggregator × Nat × Option AggError :=
  match s.phase with
  | AggPhase.Aggregated _ _ => (s, s.totalWeight, some AggError.AlreadyAggregated)
  | _ =>
    if signerID ∈ s.signers then
      (s, s.totalWeight, some AggError.DuplicateSigner)
    else
      match s.lookup signerID with
      | none => (s, s.totalWeight, some AggError.UnknownSigner)
      | some key =>
        ({ s with shares := s.shares ++ [(signerID, sig)],
                  totalWeight := s.totalWeight + key.weight },
          s.totalWeight + key.weight, none)

/-- Modelled from the spec: `Aggregate` of an implementation of
`WeightedSignatureAggregator` (section 4.2). A terminal state answers from the cache or
with the failure; otherwise it fails with `InsufficientWeight` below the threshold, leaving
the state unchanged, and else aggregates the shares of the signers in ascending order of
their identifiers, verifies the aggregate against the signers' public keys and the agreed
message, and moves to `Aggregated` or, on a failed verification, to `Failed` with
`InvalidAggregate`. -/
def Aggregate (crypto : Crypto) (s : WeightedSignatureAggregator) :
    WeightedSignatureAggregator × Except AggError (List Identifier × Bytes) :=
  match s.phase with
  | AggPhase.Aggregated signerIDs aggregate => (s, Except.ok (signerIDs, aggregate))
  | AggPhase.Failed => (s, Except.error AggError.InvalidAggregate)
  | AggPhase.Accepting =>
    if s.totalWeight < s.threshold then
      (s, Except.error AggError.InsufficientWeight)
    else
      let signerIDs := sortIDs s.signers
      let sigs := signerIDs.filterMap (fun signerID => s.shares.lookup signerID)
      let keys := signerIDs.filterMap
        (fun signerID => (s.lookup signerID).map WeightedKey.publicKey)
      let aggregate := crypto.aggregateSignatures sigs
      if crypto.verifyAggregate keys s.message aggregate then
        ({ s with phase := AggPhase.Aggregated signerIDs aggregate },
          Except.ok (signerIDs, aggregate))
      else
        ({ s with phase := AggPhase.Failed }, Except.error AggError.InvalidAggregate)

/-- The state after a sequence of `TrustedAdd` calls, whatever each call returns. -/
def addAll (s : WeightedSignatureAggregator) (adds : List (Identifier × Bytes)) :
    WeightedSignatureAggregator :=
  adds.foldl (fun st add => (st.TrustedAdd add.1 add.2).1) s

end WeightedSignatureAggregator

/-- Modelled from the spec: the state of an implementation of the interface
`RandomBeaconReconstructor` (section 4.3): the beacon key shares of the registry, the agreed
message, the threshold on the number of shares and the shares collected. Whether a share
that arrives once the threshold is reached is accepted or silently discarded is left to the
implementation (section 4.3 and the contract comment of the interface); the flag
`discardsLateShares` says which of the two this implementation does. -/
structure RandomBeaconReconstructor where
  registry : List BeaconKeyShare
  message : Bytes
  threshold : Nat
  shares : List (Identifier × Bytes)
  discardsLateShares : Bool
deriving DecidableEq, Repr

namespace RandomBeaconReconstructor

/-- Modelled from the spec: `lookupBeacon(signerID)` of the signer registry. -/
def lookupBeacon (r : RandomBeaconReconstructor) (signerID : Identifier) :
    Option BeaconKeyShare :=
  r.registry.find? (fun k => decide (k.signerID = signerID))

/-- The signers that have contributed a share. -/
def signers (r : RandomBeaconReconstructor) : List Identifier :=
  r.shares.map Prod.fst

/-- Modelled from the spec: `HasSufficientShares()`, true when the number of collected
shares has reached the threshold. -/
def HasSufficientShares (r : RandomBeaconReconstructor) : Bool :=
  decide (r.threshold ≤ r.shares.length)

/-- Modelled from the spec: `TrustedAdd` of an implementation of
`RandomBeaconReconstructor` (section 4.3). A duplicate or unknown signer is answered with
the existing `hasSufficientShares` state and the error, as the specification words it (the
contract comment of the interface returns `false` with an error). A share of a known new
signer that arrives once the threshold is reached is silently discarded by an
implementation that discards late shares: no error, and the state as it was. Any other
share is stored. -/
def TrustedAdd (r : RandomBeaconReconstructor) (signerID : Identifier) (share : Bytes) :
    RandomBeaconReconstructor × Bool × Option AggError :=
  if signerID ∈ r.signers then
    (r, r.HasSufficientShares, some AggError.DuplicateSigner)
  else
    match r.lookupBeacon signerID with
    | none => (r, r.HasSufficientShares, some AggError.UnknownSigner)
    | some _ =>
      if r.discardsLateShares && r.HasSufficientShares then
        (r, r.HasSufficientShares, none)
      else
        ({ r with shares := r.shares ++ [(signerID, share)] },
          HasSufficientShares { r with shares := r.shares ++ [(signerID, share)] }, none)

end RandomBeaconReconstructor

/-- Modelled from the spec: the state of an implementation of the interface
`CombinedSigAggregator` (section 4.4): one staking aggregator and one beacon reconstructor
over the same view, each with its own threshold. -/
structure CombinedSigAggregator where
  staking : WeightedSignatureAggregator
  beacon : RandomBeaconReconstructor
deriving DecidableEq, Repr

namespace CombinedSigAggregator

/-- Modelled from the spec: `HasSufficientWeight()`, true when both sub-aggregators have
crossed their thresholds (section 4.4; the contract comment of the interface speaks of the
stake weight only). -/
def HasSufficientWeight (c : CombinedSigAggregator) : Bool :=
  decide (c.staking.threshold ≤ c.staking.TotalWeight) && c.beacon.HasSufficientShares

/-- Modelled from the spec: `TrustedAdd` of an implementation of `CombinedSigAggregator`
(section 4.4 and the contract comment of the interface). It dispatches on the signature
type; an error of the sub-aggregator is returned with `false`; a signature type that is
neither staking nor random beacon, `SigTypeInvalid` included, is `InvalidSigType`. The
result is the new state, `hasSufficientWeight` and the error. -/
def TrustedAdd (c : CombinedSigAggregator) (signerID : Identifier) (sig : Bytes)
    (sigType : SigType) : CombinedSigAggregator × Bool × Option AggError :=
  if sigType = SigTypeStaking then
    match c.staking.TrustedAdd signerID sig with
    | (staking, _, some err) => ({ c with staking := staking }, false, some err)
    | (staking, _, none) =>
      ({ c with staking := staking },
        HasSufficientWeight { c with staking := staking }, none)
  else if sigType = SigTypeRandomBeacon then
    match c.beacon.TrustedAdd signerID sig with
    | (beacon, _, some err) => ({ c with beacon := beacon }, false, some err)
    | (beacon, _, none) =>
      ({ c with beacon := beacon }, HasSufficientWeight { c with beacon := beacon }, none)
  else
    (c, false, some AggError.InvalidSigType)

/-- The share `(signerID, sig)` of type `sigType` was added between the states `c` and
`c'`: the signer had not contributed a share of that type in `c`, and the store of that
type in `c'` is the store of `c` with the share appended. -/
def shareAdded (c c' : CombinedSigAggregator) (signerID : Identifier) (sig : Bytes)
    (sigType : SigType) : Prop :=
  (sigType = SigTypeStaking ∧ signerID ∉ c.staking.signers
      ∧ c'.staking.shares = c.staking.shares ++ [(signerID, sig)])
  ∨ (sigType = SigTypeRandomBeacon ∧ signerID ∉ c.beacon.signers
      ∧ c'.beacon.shares = c.beacon.shares ++ [(signerID, sig)])

/-- The share of `signerID` of type `sigType` was silently discarded between the states
`c` and `c'`: it is a beacon share of a known signer that had not contributed, it arrived
with the beacon threshold already reached at an implementation that discards late shares,
and the state is as it was. -/
def shareDiscarded (c c' : CombinedSigAggregator) (signerID : Identifier)
    (sigType : SigType) : Prop :=
  sigType = SigTypeRandomBeacon ∧ c.beacon.discardsLateShares = true
    ∧ c.beacon.threshold ≤ c.beacon.shares.length
    ∧ signerID ∉ c.beacon.signers
    ∧ (c.beacon.lookupBeacon signerID).isSome = true
    ∧ c' = c

end CombinedSigAggregator

/-- The committee of the scenarios of the specification: four signers `A`, `B`, `C`, `D`
(here the one-byte identifiers 1 to 4) of weight 25 each. -/
def sampleRegistry : List WeightedKey :=
  [⟨[1], [101], 25⟩, ⟨[2], [102], 25⟩, ⟨[3], [103], 25⟩, ⟨[4], [104], 25⟩]

/-- The staking aggregator of scenario S3 after the first add of signer `A`. -/
def sampleAggregator : WeightedSignatureAggregator :=
  (WeightedSignatureAggregator.new sampleRegistry [9] 67).addAll [([1], [51])]

/-- A stub cryptosystem in which an aggregate is the concatenation of the signatures and
every aggregate verifies. -/
def sampleCrypto : Crypto where
  aggregateSignatures := fun sigs => sigs.flatten
  verifyAggregate := fun _ _ _ => true

/-- The adds of scenario S6: signers in the order `D`, `A`, `C`, `B`. -/
def sampleAdds : List (Identifier × Bytes) :=
  [([4], [54]), ([1], [51]), ([3], [53]), ([2], [52])]

/-- The staking aggregator of scenario S6 after its successful `Aggregate`: all four
signers have contributed and the phase is `Aggregated`. -/
def aggregatedAggregator : WeightedSignatureAggregator :=
  (((WeightedSignatureAggregator.new sampleRegistry [9] 67).addAll
    sampleAdds).Aggregate sampleCrypto).1

/-- The beacon key shares of the committee of the scenarios. -/
def sampleBeaconRegistry : List BeaconKeyShare :=
  [⟨[1], [201], 0⟩, ⟨[2], [202], 1⟩, ⟨[3], [203], 2⟩, ⟨[4], [204], 3⟩]

/-- A combined aggregator in the state of scenario S1 after the staking signatures and the
beacon shares of `A`, `B`, `C`: staking weight 75 of threshold 67, three beacon shares of
threshold 3. Its reconstructor discards the shares that arrive after the threshold. -/
def discardingCombined : CombinedSigAggregator where
  staking := (WeightedSignatureAggregator.new sampleRegistry [9] 67).addAll
    [([1], [51]), ([2], [52]), ([3], [53])]
  beacon :=
    { registry := sampleBeaconRegistry
      message := [9]
      threshold := 3
      shares := [([1], [61]), ([2], [62]), ([3], [63])]
      discardsLateShares := true }

/-- The record `BlockSignatureData` of `signature.go`: the intermediate record of the packer. -/
structure BlockSignatureData where
  StakingSigners : List Identifier
  RandomBeaconSigners : List Identifier
  AggregatedStakingSig : Bytes
  AggregatedRandomBeaconSig : Bytes
  ReconstructedRandomBeaconSig : Bytes
deriving DecidableEq, Repr

/-- Modelled from the spec: the error kinds of the packer (sections 4.5 and 7); the sources
declare no error values for the interface. -/
inductive PackerError where
  | MalformedSigData
  | UnknownVersion
  | SignerCountMismatch
  | TrailingBytes
deriving DecidableEq, Repr

/-- Modelled from the spec: the `uint16 BE` field of the packed layout, a two-byte
big-endian unsigned integer; a larger number is truncated to 16 bits. -/
def uint16BE (n : Nat) : Bytes := [n / 256 % 256, n % 256]

/-- Modelled from the spec: the `uint32 BE` field of the packed layout, a four-byte
big-endian unsigned integer; a larger number is truncated to 32 bits. -/
def uint32BE (n : Nat) : Bytes := [n / 16777216 % 256, n / 65536 % 256, n / 256 % 256, n % 256]

/-- The number that a big-endian byte string denotes. -/
def fromBE (bytes : Bytes) : Nat := bytes.foldl (fun acc b => acc * 256 + b) 0

/-- Bit `i` of a list of bits as a number, 0 past its end. -/
def bitAt (bits : List Bool) (i : Nat) : Nat := if bits.getD i false then 1 else 0

/-- Byte `k` of the bitmap of a list of bits: the bits `8k .. 8k+7`, the first one in the
most significant position. -/
def byteAt (bits : List Bool) (k : Nat) : Nat :=
  128 * bitAt bits (8 * k) + 64 * bitAt bits (8 * k + 1) + 32 * bitAt bits (8 * k + 2)
    + 16 * bitAt bits (8 * k + 3) + 8 * bitAt bits (8 * k + 4) + 4 * bitAt bits (8 * k + 5)
    + 2 * bitAt bits (8 * k + 6) + bitAt bits (8 * k + 7)

/-- Modelled from the spec: a bitmap of the packed layout for `N` bits, `ceil(N/8)` bytes,
padded with zero bits. -/
def bitmapOf (bits : List Bool) : Bytes :=
  (List.range ((bits.length + 7) / 8)).map (byteAt bits)

/-- Bit `i` of a bitmap. -/
def testBit (bitmap : Bytes) (i : Nat) : Bool :=
  decide (bitmap.getD (i / 8) 0 / 2 ^ (7 - i % 8) % 2 = 1)

/-- Modelled from the spec: the membership bitmap of a signer set in the packed layout, in
the committee's canonical order. -/
def signerBitmap (committee signers : List Identifier) : Bytes :=
  bitmapOf (committee.map (fun id => decide (id ∈ signers)))

/-- Modelled from the spec: the committee members that a membership bitmap of the packed
layout marks, in the committee's canonical order. -/
def signersOfBitmap (committee : List Identifier) (bitmap : Bytes) : List Identifier :=
  ((committee.zip ((List.range committee.length).map (testBit bitmap))).filter
    (fun entry => entry.2)).map (fun entry => entry.1)

/-- Reading the next `n` bytes: the bytes and what follows them, `none` when fewer than `n`
bytes are left. -/
def takeBytes (n : Nat) (data : Bytes) : Option (Bytes × Bytes) :=
  if n ≤ data.length then some (data.take n, data.drop n) else none

/-- Reading a byte string preceded by its length as a four-byte big-endian integer. -/
def readBlob (data : Bytes) : Option (Bytes × Bytes) :=
  match takeBytes 4 data with
  | none => none
  | some (len, rest) => takeBytes (fromBE len) rest

/-- Modelled from the spec: `Pack` of an implementation of the interface `Packer`, of which
the sources hold the interface only. The bytes follow the packed layout of section 4.5:
version `0x01`, the two signer counts as big-endian 16-bit integers, the staking and the
beacon membership bitmap over the committee of the block (`committee blockID`, in its
canonical order), and the three signatures, each preceded by its length as a big-endian
32-bit integer. The signer IDs returned are the voters: the committee members of either set,
in the committee's order. The specification names no failure of `Pack`. -/
def Pack (committee : Identifier → List Identifier) (blockID : Identifier)
    (sig : BlockSignatureData) : List Identifier × Bytes :=
  let members := committee blockID
  (members.filter (fun id =>
      decide (id ∈ sig.StakingSigners) || decide (id ∈ sig.RandomBeaconSigners)),
    [1] ++ (uint16BE sig.StakingSigners.length
      ++ (uint16BE sig.RandomBeaconSigners.length
      ++ (signerBitmap members sig.StakingSigners
      ++ (signerBitmap members sig.RandomBeaconSigners
      ++ (uint32BE sig.AggregatedStakingSig.length ++ (sig.AggregatedStakingSig
      ++ (uint32BE sig.AggregatedRandomBeaconSig.length ++ (sig.AggregatedRandomBeaconSig
      ++ (uint32BE sig.ReconstructedRandomBeaconSig.length
      ++ sig.ReconstructedRandomBeaconSig))))))))))

/-- Modelled from the spec: `Unpack` of an implementation of the interface `Packer`
(section 4.5). It resolves the committee from the block, reads the layout field by field
(`MalformedSigData` when the bytes end early, `UnknownVersion` when the version is not
`0x01`, `TrailingBytes` when bytes are left over), decodes the two bitmaps against the
committee in its declared order, and populates the two signer lists in the canonical order
of the data model, ascending by the raw bytes of the identifiers (sections 3 and 9). It
answers `SignerCountMismatch` when a signer count of the header differs from the number of
members its bitmap marks or when the number of signer IDs passed differs from the number of
voters. -/
def Unpack (committee : Identifier → List Identifier) (blockID : Identifier)
    (signerIDs : List Identifier) (sigData : Bytes) : Except PackerError BlockSignatureData :=
  let members := committee blockID
  let bitmapLen := (members.length + 7) / 8
  match takeBytes 1 sigData with
  | none => Except.error PackerError.MalformedSigData
  | some (version, afterVersion) =>
    if version ≠ [1] then Except.error PackerError.UnknownVersion else
    match takeBytes 2 afterVersion with
    | none => Except.error PackerError.MalformedSigData
    | some (stakingCount, afterStakingCount) =>
    match takeBytes 2 afterStakingCount with
    | none => Except.error PackerError.MalformedSigData
    | some (beaconCount, afterCounts) =>
    match takeBytes bitmapLen afterCounts with
    | none => Except.error PackerError.MalformedSigData
    | some (stakingBitmap, afterStakingBitmap) =>
    match takeBytes bitmapLen afterStakingBitmap with
    | none => Except.error PackerError.MalformedSigData
    | some (beaconBitmap, afterBitmaps) =>
    match readBlob afterBitmaps with
    | none => Except.error PackerError.MalformedSigData
    | some (aggStaking, afterAggStaking) =>
    match readBlob afterAggStaking with
    | none => Except.error PackerError.MalformedSigData
    | some (aggBeacon, afterAggBeacon) =>
    match readBlob afterAggBeacon with
    | none => Except.error PackerError.MalformedSigData
    | some (reconstructed, trailing) =>
    if trailing ≠ [] then Except.error PackerError.TrailingBytes else
    let stakingSigners := sortIDs (signersOfBitmap members stakingBitmap)
    let beaconSigners := sortIDs (signersOfBitmap members beaconBitmap)
    let voters := members.filter (fun id =>
      decide (id ∈ stakingSigners) || decide (id ∈ beaconSigners))
    if stakingSigners.length ≠ fromBE stakingCount
        ∨ beaconSigners.length ≠ fromBE beaconCount
        ∨ signerIDs.length ≠ voters.length then
      Except.error PackerError.SignerCountMismatch
    else
      Except.ok
        { StakingSigners := stakingSigners
          RandomBeaconSigners := beaconSigners
          AggregatedStakingSig := aggStaking
          AggregatedRandomBeaconSig := aggBeacon
          ReconstructedRandomBeaconSig := reconstructed }

/-- Modelled from the spec: a valid `BlockSignatureData` for a committee, as far as the
packed layout can carry it. The committee lists each member once; the two signer lists are
ordered sets in the canonical order of the data model (section 3), strictly ascending by
the raw bytes of the identifiers, and hold committee members only; the signer counts fit
16 bits and the signature lengths 32 bits. The order in which the committee is declared is
free. -/
def validSignatureData (members : List Identifier) (sig : BlockSignatureData) : Prop :=
  members.Nodup
  ∧ List.Sorted (fun a b => a < b) sig.StakingSigners
  ∧ (∀ id ∈ sig.StakingSigners, id ∈ members)
  ∧ List.Sorted (fun a b => a < b) sig.RandomBeaconSigners
  ∧ (∀ id ∈ sig.RandomBeaconSigners, id ∈ members)
  ∧ sig.StakingSigners.length < 2 ^ 16
  ∧ sig.RandomBeaconSigners.length < 2 ^ 16
  ∧ sig.AggregatedStakingSig.length < 2 ^ 32
  ∧ sig.AggregatedRandomBeaconSig.length < 2 ^ 32
  ∧ sig.ReconstructedRandomBeaconSig.length < 2 ^ 32

/-- The committee of every block in the scenarios, declared in the order `D`, `B`, `A`,
`C`, which is not the ascending order of the identifiers. -/
def sampleCommittee : Identifier → List Identifier :=
  fun _ => [[4], [2], [1], [3]]

/-- The signature data of scenario S5: staking signers `A`, `B`, `C`, beacon signers
`A`, `C`, `D`. -/
def sampleSignatureData : BlockSignatureData where
  StakingSigners := [[1], [2], [3]]
  RandomBeaconSigners := [[1], [3], [4]]
  AggregatedStakingSig := [51, 52, 53]
  AggregatedRandomBeaconSig := [61, 63, 64]
  ReconstructedRandomBeaconSig := [77]

end Hotstuff

namespace Types

/-- What `block_header.go` and `block_proposal.go` read of a `Block`, whose declaration is
not part of the sources: the fields `QC` (a pointer, possibly nil), `View` and `Height`, and
the method `BlockID`, which is called on the pointer itself (`none` stands for a nil pointer
as argument and for a panic as result). -/
structure BlockOps (Block QuorumCertificate : Type) where
  QC : Block → Option QuorumCertificate
  View : Block → Nat
  Height : Block → Nat
  BlockID : Option Block → Option Bytes

/-- The record `BlockProposal` of `block_proposal.go`: two pointers, each possibly nil. -/
structure BlockProposal (Block Signature : Type) where
  Block : Option Block
  Signature : Option Signature
deriving DecidableEq, Repr

/-- The record `BlockHeader` of `block_header.go`: two pointers, each possibly nil. -/
structure BlockHeader (Block Signature : Type) where
  Block : Option Block
  Signature : Option Signature
deriving DecidableEq, Repr

/-- The constructor `NewBlockProposal` of `block_proposal.go`; the result is the record
the returned pointer refers to. -/
def NewBlockProposal {Block Signature : Type} (block : Option Block)
    (sig : Option Signature) : BlockProposal Block Signature :=
  { Block := block, Signature := sig }

/-- The constructor `NewBlockHeader` of `block_header.go`, whose result type is `*BlockProposal`. -/
def NewBlockHeader {Block Signature : Type} (block : Option Block)
    (sig : Option Signature) : BlockProposal Block Signature :=
  { Block := block, Signature := sig }

/-- The method `func (b *BlockProposal) QC()`: `b.Block.QC`; `none` is the nil dereference. -/
def BlockProposal.QC {Block Signature QuorumCertificate : Type}
    (ops : BlockOps Block QuorumCertificate) (b : BlockProposal Block Signature) :
    Option (Option QuorumCertificate) :=
  b.Block.map ops.QC

/-- The method `func (b *BlockProposal) View()`: `b.Block.View`; `none` is the nil dereference. -/
def BlockProposal.View {Block Signature QuorumCertificate : Type}
    (ops : BlockOps Block QuorumCertificate) (b : BlockProposal Block Signature) :
    Option Nat :=
  b.Block.map ops.View

/-- The method `func (b *BlockProposal) BlockID()`: `b.Block.BlockID()`. -/
def BlockProposal.BlockID {Block Signature QuorumCertificate : Type}
    (ops : BlockOps Block QuorumCertificate) (b : BlockProposal Block Signature) :
    Option Bytes :=
  ops.BlockID b.Block

/-- The method `func (b *BlockProposal) Height()`: `b.Block.Height`; `none` is the nil dereference. -/
def BlockProposal.Height {Block Signature QuorumCertificate : Type}
    (ops : BlockOps Block QuorumCertificate) (b : BlockProposal Block Signature) :
    Option Nat :=
  b.Block.map ops.Height

/-- The method `func (b BlockHeader) QC()`: `b.Block.QC`; `none` is the nil dereference. -/
def BlockHeader.QC {Block Signature QuorumCertificate : Type}
    (ops : BlockOps Block QuorumCertificate) (b : BlockHeader Block Signature) :
    Option (Option QuorumCertificate) :=
  b.Block.map ops.QC

/-- The method `func (b BlockHeader) View()`: `b.Block.View`; `none` is the nil dereference. -/
def BlockHeader.View {Block Signature QuorumCertificate : Type}
    (ops : BlockOps Block QuorumCertificate) (b : BlockHeader Block Signature) :
    Option Nat :=
  b.Block.map ops.View

/-- The method `func (b BlockHeader) BlockID()`: `b.Block.BlockID()`. -/
def BlockHeader.BlockID {Block Signature QuorumCertificate : Type}
    (ops : BlockOps Block QuorumCertificate) (b : BlockHeader Block Signature) :
    Option Bytes :=
  ops.BlockID b.Block

/-- The method `func (b BlockHeader) Height()`: `b.Block.Height`; `none` is the nil dereference. -/
def BlockHeader.Height {Block Signature QuorumCertificate : Type}
    (ops : BlockOps Block QuorumCertificate) (b : BlockHeader Block Signature) :
    Option Nat :=
  b.Block.map ops.Height

end Types

namespace Data

/-- A Go map value: the nil map, or a table giving the value stored under each key that is
present. -/
inductive GoMap (K V : Type) where
  | nilMap
  | table (entries : K → Option V)

namespace GoMap

/-- The empty map that `make(map[K]V)` returns. -/
def make {K V : Type} : GoMap K V := table (fun _ => none)

/-- The read `v, ok := m[k]`: `some v` when `ok`, `none` when the key is absent (always so
in the nil map). -/
def lookup {K V : Type} (m : GoMap K V) (k : K) : Option V :=
  match m with
  | nilMap => none
  | table entries => entries k

/-- The assignment `m[k] = v`; `none` is the run-time panic of an assignment to an entry of
the nil map. -/
def assign {K V : Type} [DecidableEq K] (m : GoMap K V) (k : K) (v : V) :
    Option (GoMap K V) :=
  match m with
  | nilMap => none
  | table entries => some (table (fun key => if key = k then some v else entries key))

end GoMap

/-- The record `WorldState` of `data/state.go`. The key type `crypto.Hash` and the records
`Block`, `Collection` and `Transaction` are declared outside the sources and are type
parameters; their zero values (`Block{}` and so on) are `default`. -/
structure WorldState (Hash Block Collection Transaction : Type) where
  Blocks : GoMap Hash Block
  Collections : GoMap Hash Collection
  Transactions : GoMap Hash Transaction
  Blockchain : List Block

/-- The constructor `NewWorldState` of `data/state.go`; the result is the record the
returned pointer refers to. -/
def NewWorldState {Hash Block Collection Transaction : Type} :
    WorldState Hash Block Collection Transaction :=
  { Blocks := GoMap.make
    Collections := GoMap.make
    Transactions := GoMap.make
    Blockchain := [] }

namespace WorldState

variable {Hash Block Collection Transaction : Type}

/-- The method `GetBlockByNumber` of `data/state.go`, on a `uint64` number `n`. The result
is the state after the call, the block and the error (`none` for `nil`); the outer `none` is
the run-time panic of `s.Blockchain[n]` with `n` out of range. `int(n)` is the conversion
of the unsigned number to the 64-bit `int`. -/
def GetBlockByNumber [Inhabited Block] (s : WorldState Hash Block Collection Transaction)
    (n : Nat) : Option (WorldState Hash Block Collection Transaction × Block × Option String) :=
  let currHeight : Int := (s.Blockchain.length : Int)
  if wrapInt (n : Int) < currHeight then
    match s.Blockchain[n]? with
    | some block => some (s, block, none)
    | none => none
  else
    some (s, default, some "invalid Block number: Block number exceeds blockchain length")

/-- The method `GetBlockByHash` of `data/state.go`: the state after the call, the block and
the error (`none` for `nil`). -/
def GetBlockByHash [Inhabited Block] (s : WorldState Hash Block Collection Transaction)
    (h : Hash) : WorldState Hash Block Collection Transaction × Block × Option String :=
  match s.Blocks.lookup h with
  | some block => (s, block, none)
  | none => (s, default, some "invalid Block hash: Block doesn\x27t exist")

/-- The method `GetCollection` of `data/state.go`: the state after the call, the collection
and the error (`none` for `nil`). -/
def GetCollection [Inhabited Collection] (s : WorldState Hash Block Collection Transaction)
    (h : Hash) : WorldState Hash Block Collection Transaction × Collection × Option String :=
  match s.Collections.lookup h with
  | some collection => (s, collection, none)
  | none => (s, default, some "invalid Collection hash: Collection doesn\x27t exist")

/-- The method `GetTransaction` of `data/state.go`: the state after the call, the
transaction and the error (`none` for `nil`). -/
def GetTransaction [Inhabited Transaction] (s : WorldState Hash Block Collection Transaction)
    (h : Hash) : WorldState Hash Block Collection Transaction × Transaction × Option String :=
  match s.Transactions.lookup h with
  | some tx => (s, tx, none)
  | none => (s, default, some "invalid Transaction hash: Transaction doesn\x27t exist")

/-- The method `InsertTransaction` of `data/state.go`. `hashOf` is the method `tx.Hash()`,
which is declared outside the sources. The result is the state after the call and the error
(`none` for `nil`); the outer `none` is the run-time panic of the assignment when
`s.Transactions` is the nil map. -/
def InsertTransaction [DecidableEq Hash] (hashOf : Transaction → Hash)
    (s : WorldState Hash Block Collection Transaction) (tx : Transaction) :
    Option (WorldState Hash Block Collection Transaction × Option String) :=
  match s.Transactions.lookup (hashOf tx) with
  | some _ => some (s, some "transaction exists")
  | none =>
    match s.Transactions.assign (hashOf tx) tx with
    | none => none
    | some transactions => some ({ s with Transactions := transactions }, none)

end WorldState

/-- A sample world state over numbers as hashes, blocks, collections and transactions (a
transaction is its own hash): a chain of the two blocks 10 and 11, block 10 stored under
hash 1, and transaction 7 stored. -/
def sampleState : WorldState Nat Nat Nat Nat :=
  { Blocks := GoMap.table (fun h => if h = 1 then some 10 else none)
    Collections := GoMap.make
    Transactions := GoMap.table (fun h => if h = 7 then some 7 else none)
    Blockchain := [10, 11] }

end Data

namespace Common

/-- A Go string, as the list of its characters. -/
abbrev GoString := List Char

/-- The constant `DefaultAccessAPIPort` of `flow_client.go`. -/
def DefaultAccessAPIPort : GoString := "9000".toList

/-- The constant `DefaultAccessAPISecurePort` of `flow_client.go`. -/
def DefaultAccessAPISecurePort : GoString := "9001".toList

/-- The library function `strings.Split(s, sep)` for a separator of one character: the
pieces of `s` between the occurrences of `sep`, at least one piece. -/
def stringsSplit (sep : Char) : GoString → List GoString
  | [] => [[]]
  | c :: rest =>
    if c = sep then
      [] :: stringsSplit sep rest
    else
      match stringsSplit sep rest with
      | [] => [[c]]
      | piece :: pieces => (c :: piece) :: pieces

/-- The function `convertAccessAddrFromState` of `flow_client.go`: the first piece of the
address split at `:` (element `[0]` exists, `strings.Split` returns at least one piece),
followed by `:` and the insecure or the secure API port. -/
def convertAccessAddrFromState (address : GoString) (insecureAccessAPI : Bool) : GoString :=
  let accessAddress := (stringsSplit ':' address).headD []
  if insecureAccessAPI then
    accessAddress ++ (":".toList ++ DefaultAccessAPIPort)
  else
    accessAddress ++ (":".toList ++ DefaultAccessAPISecurePort)

end Common

/-! ## Theorems -/

/-! ### Ledger proofs: `VerifyProof` and `VerifyBatchProof` -/

namespace Verifier

theorem wrapInt_of_range (x : Int) (h0 : -(2 ^ 63) ≤ x) (h1 : x < 2 ^ 63) : wrapInt x = x := by
  unfold wrapInt
  omega

theorem wrapInt_range (x : Int) : -(2 ^ 63) ≤ wrapInt x ∧ wrapInt x < 2 ^ 63 := by
  unfold wrapInt
  omega

theorem setFlags_succ {Payload : Type} (ops : TrieOps Payload) (p : Proof) (n : Nat) :
    setFlags ops p (n + 1)
      = setFlags ops p n + (if ops.IsBitSet p.Flags (n : Int) then 1 else 0) := by
  unfold setFlags
  rw [List.range_succ, List.countP_append]
  simp [List.countP_cons]

/-- The loop, entered with `n` iterations to go, computes the fold of `climbStep` over the
bit indices `n-1, …, 0`, provided the values not yet used cover the flags still to come. -/
theorem verifyLoop_eq_climb {Payload : Type} (ops : TrieOps Payload) (p : Proof)
    (path : Bytes) (treeHeight : Int) :
    ∀ (n : Nat) (rem sfx : List Bytes) (computed : Bytes),
      p.Values = rem.reverse ++ sfx →
      setFlags ops p n ≤ rem.length →
      verifyLoop ops p path treeHeight (treeHeight + 1 - (n : Int))
          ((rem.length : Int) - 1) computed
        = some ((List.range n).reverse.foldl (climbStep ops p path treeHeight)
            (computed, rem)).1 := by
  intro n
  induction n with
  | zero =>
    intro rem sfx computed _ _
    rw [verifyLoop]
    simp
  | succ n ih =>
    intro rem sfx computed hv hc
    rw [setFlags_succ] at hc
    have hh : treeHeight + 1 - ((n + 1 : Nat) : Int) = treeHeight - (n : Int) := by
      push_cast; ring
    rw [hh, verifyLoop]
    have hle : treeHeight - (n : Int) ≤ treeHeight := by omega
    have hbit : treeHeight - (treeHeight - (n : Int)) = (n : Int) := by ring
    have hnext : treeHeight - (n : Int) + 1 = treeHeight + 1 - (n : Int) := by ring
    rw [if_pos hle, hbit, hnext, List.range_succ, List.reverse_append]
    simp only [List.reverse_cons, List.reverse_nil, List.nil_append, List.singleton_append,
      List.foldl_cons]
    by_cases hf : ops.IsBitSet p.Flags (n : Int) = true
    · rw [if_pos hf]
      rw [if_pos hf] at hc
      cases rem with
      | nil => simp at hc
      | cons r rs =>
        have hidx : ¬ (((r :: rs).length : Int) - 1 < 0) := by
          simp only [List.length_cons]; push_cast; omega
        rw [if_neg hidx]
        have hlen : ((r :: rs).length : Int) - 1 - 1 = (rs.length : Int) - 1 := by
          simp only [List.length_cons]; push_cast; ring
        have hnat : (((r :: rs).length : Int) - 1).toNat = rs.length := by
          simp only [List.length_cons]; push_cast; omega
        have hv2 : p.Values = rs.reverse ++ (r :: sfx) := by
          rw [hv]; simp
        have hget : p.Values.getD rs.length [] = r := by
          rw [hv2, List.getD_eq_getElem?_getD, List.getElem?_append_right (by simp)]
          simp
        have hc2 : setFlags ops p n ≤ rs.length := by
          simp only [List.length_cons] at hc; omega
        simp only [hlen, hnat, hget]
        rw [ih rs (r :: sfx) _ hv2 hc2]
        simp [climbStep, hf]
    · rw [if_neg hf]
      rw [if_neg hf] at hc
      rw [ih rem sfx _ hv (by omega)]
      simp [climbStep, hf]

/-- With more flags still to come than values left, the loop executes `return false`. -/
theorem verifyLoop_too_few {Payload : Type} (ops : TrieOps Payload) (p : Proof)
    (path : Bytes) (treeHeight : Int) :
    ∀ (n : Nat) (proofIndex : Int) (computed : Bytes),
      -1 ≤ proofIndex →
      proofIndex + 1 < (setFlags ops p n : Int) →
      verifyLoop ops p path treeHeight (treeHeight + 1 - (n : Int)) proofIndex computed
        = none := by
  intro n
  induction n with
  | zero =>
    intro proofIndex computed h0 hc
    simp [setFlags] at hc
    omega
  | succ n ih =>
    intro proofIndex computed h0 hc
    rw [setFlags_succ] at hc
    have hh : treeHeight + 1 - ((n + 1 : Nat) : Int) = treeHeight - (n : Int) := by
      push_cast; ring
    rw [hh, verifyLoop]
    have hle : treeHeight - (n : Int) ≤ treeHeight := by omega
    have hbit : treeHeight - (treeHeight - (n : Int)) = (n : Int) := by ring
    have hnext : treeHeight - (n : Int) + 1 = treeHeight + 1 - (n : Int) := by ring
    rw [if_pos hle, hbit, hnext]
    by_cases hf : ops.IsBitSet p.Flags (n : Int) = true
    · rw [if_pos hf]
      rw [if_pos hf] at hc
      by_cases hneg : proofIndex < 0
      · rw [if_pos hneg]
      · rw [if_neg hneg]
        dsimp only
        apply ih
        · omega
        · push_cast at hc; omega
    · rw [if_neg hf]
      rw [if_neg hf] at hc
      dsimp only
      apply ih
      · exact h0
      · push_cast at hc; omega

/-- The height sanity check passes exactly when the loop has `p.Steps` iterations to make
from the leaf height `treeHeight - p.Steps`. -/
theorem leafHeightOf_of_sane (p : Proof) (expectedKeySize : Int) (hsteps : p.Steps < 2 ^ 64)
    (hsane : 0 ≤ leafHeightOf p expectedKeySize ∧
      leafHeightOf p expectedKeySize ≤ treeHeightOf expectedKeySize) :
    leafHeightOf p expectedKeySize = treeHeightOf expectedKeySize - (p.Steps : Int) := by
  have hT := wrapInt_range (8 * expectedKeySize)
  unfold leafHeightOf treeHeightOf at *
  generalize wrapInt (8 * expectedKeySize) = T at *
  unfold wrapInt at *
  omega

theorem leafHeightOf_of_le (p : Proof) (expectedKeySize : Int)
    (hsteps : (p.Steps : Int) ≤ treeHeightOf expectedKeySize) :
    leafHeightOf p expectedKeySize = treeHeightOf expectedKeySize - (p.Steps : Int) := by
  have hT := wrapInt_range (8 * expectedKeySize)
  unfold leafHeightOf treeHeightOf at *
  generalize wrapInt (8 * expectedKeySize) = T at *
  unfold wrapInt at *
  omega

/-- C1: when `p.Steps` does not exceed the tree height `8 * expectedKeySize` (the value
the Go `int` computes) and the proof
stores at least as many values as flags are set among the positions `0 .. p.Steps-1`,
`VerifyProof` returns true exactly when (the root recomputed from the leaf, bit index by
bit index from `p.Steps - 1` down to `0`, equals `expectedRootHash`) equals
`p.Inclusion`. -/
theorem VerifyProof_recomputes_root {Payload : Type} (ops : TrieOps Payload) (p : Proof)
    (path : Bytes) (payload : Payload) (expectedRootHash : Bytes) (expectedKeySize : Int)
    (hsteps : (p.Steps : Int) ≤ treeHeightOf expectedKeySize)
    (hvalues : setFlags ops p p.Steps ≤ p.Values.length) :
    VerifyProof ops p path payload expectedRootHash expectedKeySize
      = (decide (recomputedRoot ops p path payload expectedKeySize = expectedRootHash)
          == p.Inclusion) := by
  have hleaf := leafHeightOf_of_le p expectedKeySize hsteps
  have hloop := verifyLoop_eq_climb ops p path (treeHeightOf expectedKeySize) p.Steps
    p.Values.reverse [] (ops.ComputeCompactValue path payload
      (treeHeightOf expectedKeySize - (p.Steps : Int))) (by simp) (by simpa using hvalues)
  have hstart : treeHeightOf expectedKeySize - (p.Steps : Int) + 1
      = treeHeightOf expectedKeySize + 1 - (p.Steps : Int) := by ring
  have h0 : (0 : Int) ≤ treeHeightOf expectedKeySize - (p.Steps : Int) := by omega
  have h1 : treeHeightOf expectedKeySize - (p.Steps : Int) ≤ treeHeightOf expectedKeySize := by
    omega
  rw [List.length_reverse] at hloop
  unfold VerifyProof recomputedRoot
  simp only [hleaf, hstart, h0, h1, hloop, decide_True, Bool.and_self, Bool.not_true,
    Bool.false_eq_true, if_false]

/-- C1 at the sample proof with a one-byte key: both hypotheses hold, the recomputed root
is `[6, 64, 7, 5, 22, 11]`, and the result of `VerifyProof` is the comparison with it. -/
theorem VerifyProof_recomputes_root_witness :
    ((sampleProof.Steps : Int) ≤ treeHeightOf 1
      ∧ setFlags sampleOps sampleProof sampleProof.Steps ≤ sampleProof.Values.length)
    ∧ recomputedRoot sampleOps sampleProof [0x40] [7] 1 = [6, 64, 7, 5, 22, 11]
    ∧ VerifyProof sampleOps sampleProof [0x40] [7] [6, 64, 7, 5, 22, 11] 1
      = (decide (recomputedRoot sampleOps sampleProof [0x40] [7] 1 = [6, 64, 7, 5, 22, 11])
          == sampleProof.Inclusion) :=
  ⟨⟨by decide, by decide⟩, by decide,
    VerifyProof_recomputes_root sampleOps sampleProof [0x40] [7] [6, 64, 7, 5, 22, 11] 1
      (by decide) (by decide)⟩

/-- A proof that passes the height sanity check with more flags set than values stored
makes the loop return false, and so does `VerifyProof`. -/
theorem VerifyProof_false_of_few_values {Payload : Type} (ops : TrieOps Payload) (p : Proof)
    (path : Bytes) (payload : Payload) (expectedRootHash : Bytes) (expectedKeySize : Int)
    (hsteps : p.Steps < 2 ^ 64)
    (hsane : 0 ≤ leafHeightOf p expectedKeySize ∧
      leafHeightOf p expectedKeySize ≤ treeHeightOf expectedKeySize)
    (hfew : p.Values.length < setFlags ops p p.Steps) :
    VerifyProof ops p path payload expectedRootHash expectedKeySize = false := by
  have hleaf := leafHeightOf_of_sane p expectedKeySize hsteps hsane
  have hloop := verifyLoop_too_few ops p path (treeHeightOf expectedKeySize) p.Steps
    ((p.Values.length : Int) - 1) (ops.ComputeCompactValue path payload
      (treeHeightOf expectedKeySize - (p.Steps : Int))) (by omega) (by omega)
  have hstart : treeHeightOf expectedKeySize - (p.Steps : Int) + 1
      = treeHeightOf expectedKeySize + 1 - (p.Steps : Int) := by ring
  unfold VerifyProof
  simp only [hleaf, hstart, hloop]
  simp

/-- C2: a proof that passes the height sanity check and has more flag bits set among the
positions `0 .. p.Steps-1` than it stores values is rejected, whatever `p.Inclusion` and
`expectedRootHash` are. -/
theorem VerifyProof_too_few_values {Payload : Type} (ops : TrieOps Payload) (p : Proof)
    (path : Bytes) (payload : Payload) (expectedRootHash : Bytes) (expectedKeySize : Int)
    (hsteps : p.Steps < 2 ^ 64)
    (hsane : 0 ≤ leafHeightOf p expectedKeySize ∧
      leafHeightOf p expectedKeySize ≤ treeHeightOf expectedKeySize)
    (hfew : p.Values.length < setFlags ops p p.Steps) :
    VerifyProof ops p path payload expectedRootHash expectedKeySize = false :=
  VerifyProof_false_of_few_values ops p path payload expectedRootHash expectedKeySize
    hsteps hsane hfew

/-- C2 at the sample proof with one value removed. -/
theorem VerifyProof_too_few_values_witness :
    (shortProof.Steps < 2 ^ 64
      ∧ (0 ≤ leafHeightOf shortProof 1 ∧ leafHeightOf shortProof 1 ≤ treeHeightOf 1)
      ∧ shortProof.Values.length < setFlags sampleOps shortProof shortProof.Steps)
    ∧ VerifyProof sampleOps shortProof [0x40] [7] [5, 6] 1 = false :=
  ⟨⟨by decide, by decide, by decide⟩,
    VerifyProof_too_few_values sampleOps shortProof [0x40] [7] [5, 6] 1
      (by decide) (by decide) (by decide)⟩

/-- An invalid proof at position `j` makes the loop return false, provided only that the
path and payload of position `j` exist: nothing after position `j` is read. -/
theorem verifyBatchLoop_false_of_invalid {Payload : Type}
    (Verify : Proof → Bytes → Payload → Bytes → Int → Bool) (paths : List Bytes)
    (payloads : List Payload) (expectedRootHash : Bytes) (expectedKeySize : Int) :
    ∀ (proofs : List Proof) (i j : Nat) (p : Proof) (path : Bytes) (payload : Payload),
      proofs[j]? = some p → paths[i + j]? = some path → payloads[i + j]? = some payload →
      Verify p path payload expectedRootHash expectedKeySize = false →
      verifyBatchLoop Verify paths payloads expectedRootHash expectedKeySize i proofs
        = some false := by
  intro proofs
  induction proofs with
  | nil => intro i j p path payload hp; simp at hp
  | cons q rest ih =>
    intro i j p path payload hp hpath hpayload hbad
    have hlp : i + j < paths.length := (List.getElem?_eq_some.mp hpath).1
    have hly : i + j < payloads.length := (List.getElem?_eq_some.mp hpayload).1
    have hi1 : i < paths.length := by omega
    have hi2 : i < payloads.length := by omega
    rw [verifyBatchLoop, List.getElem?_eq_getElem hi1, List.getElem?_eq_getElem hi2]
    dsimp only
    cases j with
    | zero =>
      simp only [List.getElem?_cons_zero, Option.some.injEq] at hp
      rw [Nat.add_zero, List.getElem?_eq_getElem hi1, Option.some.injEq] at hpath
      rw [Nat.add_zero, List.getElem?_eq_getElem hi2, Option.some.injEq] at hpayload
      rw [hp, hpath, hpayload, hbad]
      rfl
    | succ j =>
      by_cases hq : Verify q paths[i] payloads[i] expectedRootHash expectedKeySize = true
      · rw [hq]
        simp only [Bool.not_true, Bool.false_eq_true, if_false]
        have e : i + (j + 1) = i + 1 + j := by omega
        rw [e] at hpath hpayload
        exact ih (i + 1) j p path payload (by simpa using hp) hpath hpayload hbad
      · simp only [Bool.not_eq_true] at hq
        rw [hq]
        rfl

/-- With a path and a payload for every proof, the loop returns true exactly when every
proof still to visit verifies. -/
theorem verifyBatchLoop_true_iff {Payload : Type}
    (Verify : Proof → Bytes → Payload → Bytes → Int → Bool) (paths : List Bytes)
    (payloads : List Payload) (expectedRootHash : Bytes) (expectedKeySize : Int) :
    ∀ (proofs : List Proof) (i : Nat),
      i + proofs.length ≤ paths.length → i + proofs.length ≤ payloads.length →
      (verifyBatchLoop Verify paths payloads expectedRootHash expectedKeySize i proofs
          = some true
        ↔ ∀ (j : Nat) (p : Proof) (path : Bytes) (payload : Payload),
            proofs[j]? = some p → paths[i + j]? = some path →
            payloads[i + j]? = some payload →
            Verify p path payload expectedRootHash expectedKeySize = true) := by
  intro proofs
  induction proofs with
  | nil =>
    intro i _ _
    simp [verifyBatchLoop]
  | cons q rest ih =>
    intro i h1 h2
    simp only [List.length_cons] at h1 h2
    have hi1 : i < paths.length := by omega
    have hi2 : i < payloads.length := by omega
    rw [verifyBatchLoop, List.getElem?_eq_getElem hi1, List.getElem?_eq_getElem hi2]
    dsimp only
    by_cases hq : Verify q paths[i] payloads[i] expectedRootHash expectedKeySize = true
    · rw [hq]
      simp only [Bool.not_true, Bool.false_eq_true, if_false]
      rw [ih (i + 1) (by omega) (by omega)]
      constructor
      · intro h j p path payload hp hpath hpayload
        cases j with
        | zero =>
          simp only [List.getElem?_cons_zero, Option.some.injEq] at hp
          rw [Nat.add_zero, List.getElem?_eq_getElem hi1, Option.some.injEq] at hpath
          rw [Nat.add_zero, List.getElem?_eq_getElem hi2, Option.some.injEq] at hpayload
          rw [← hp, ← hpath, ← hpayload]
          exact hq
        | succ j =>
          have e : i + (j + 1) = i + 1 + j := by omega
          rw [e] at hpath hpayload
          exact h j p path payload (by simpa using hp) hpath hpayload
      · intro h j p path payload hp hpath hpayload
        have e : i + 1 + j = i + (j + 1) := by omega
        rw [e] at hpath hpayload
        exact h (j + 1) p path payload (by simpa using hp) hpath hpayload
    · simp only [Bool.not_eq_true] at hq
      rw [hq]
      simp only [Bool.not_false, if_true]
      constructor
      · intro h
        simp at h
      · intro h
        have := h 0 q paths[i] payloads[i] (by simp)
          (by rw [Nat.add_zero, List.getElem?_eq_getElem hi1])
          (by rw [Nat.add_zero, List.getElem?_eq_getElem hi2])
        rw [hq] at this
        simp at this

/-- C3: given a path and a payload for every proof of the batch, `VerifyBatchProof` returns
true if and only if every proof verifies against the path and payload of its index, and it
returns false when any proof is invalid. -/
theorem VerifyBatchProof_iff_all {Payload : Type}
    (Verify : Proof → Bytes → Payload → Bytes → Int → Bool) (bp : BatchProof)
    (paths : List Bytes) (payloads : List Payload) (expectedRootHash : Bytes)
    (expectedKeySize : Int)
    (hpaths : bp.Proofs.length ≤ paths.length)
    (hpayloads : bp.Proofs.length ≤ payloads.length) :
    (VerifyBatchProof Verify bp paths payloads expectedRootHash expectedKeySize = some true
      ↔ ∀ (i : Nat) (p : Proof) (path : Bytes) (payload : Payload),
          bp.Proofs[i]? = some p → paths[i]? = some path → payloads[i]? = some payload →
          Verify p path payload expectedRootHash expectedKeySize = true)
    ∧ (∀ (i : Nat) (p : Proof) (path : Bytes) (payload : Payload),
          bp.Proofs[i]? = some p → paths[i]? = some path → payloads[i]? = some payload →
          Verify p path payload expectedRootHash expectedKeySize = false →
          VerifyBatchProof Verify bp paths payloads expectedRootHash expectedKeySize
            = some false) := by
  unfold VerifyBatchProof
  constructor
  · have h := verifyBatchLoop_true_iff Verify paths payloads expectedRootHash
      expectedKeySize bp.Proofs 0 (by omega) (by omega)
    simpa using h
  · intro i p path payload hp hpath hpayload hbad
    exact verifyBatchLoop_false_of_invalid Verify paths payloads expectedRootHash
      expectedKeySize bp.Proofs 0 i p path payload hp (by simpa using hpath)
      (by simpa using hpayload) hbad

/-- C3 at the sample batch, whose second proof is invalid, with `VerifyProof` on the sample
operations as the proof check: there is a path and a payload for each proof, and the batch
is rejected. -/
theorem VerifyBatchProof_iff_all_witness :
    (sampleBatch.Proofs.length ≤ ([[0x40], [0x40]] : List Bytes).length
      ∧ sampleBatch.Proofs.length ≤ ([[7], [7]] : List Bytes).length)
    ∧ VerifyBatchProof (VerifyProof sampleOps) sampleBatch [[0x40], [0x40]] [[7], [7]]
        [6, 64, 7, 5, 22, 11] 1 = some false :=
  ⟨⟨by decide, by decide⟩,
    (VerifyBatchProof_iff_all (VerifyProof sampleOps) sampleBatch [[0x40], [0x40]] [[7], [7]]
      [6, 64, 7, 5, 22, 11] 1 (by decide) (by decide)).2 1 shortProof [0x40] [7] rfl rfl rfl
      (VerifyProof_false_of_few_values sampleOps shortProof [0x40] [7] [6, 64, 7, 5, 22, 11] 1
        (by decide) (by decide) (by decide))⟩

/-- With `p.Steps` above the tree height the height sanity check fails: the leaf height is
negative, or it wrapped around and exceeds the tree height. -/
theorem leafHeightOf_insane (p : Proof) (expectedKeySize : Int) (hsteps : p.Steps < 2 ^ 64)
    (hgt : treeHeightOf expectedKeySize < (p.Steps : Int)) :
    ¬ (0 ≤ leafHeightOf p expectedKeySize ∧
      leafHeightOf p expectedKeySize ≤ treeHeightOf expectedKeySize) := by
  intro hsane
  have h := leafHeightOf_of_sane p expectedKeySize hsteps hsane
  omega

/-- When the height sanity check fails `VerifyProof` returns false, whatever the trie
operations, the path, the payload and the root hash are. -/
theorem VerifyProof_false_of_insane {Payload : Type} (ops : TrieOps Payload) (p : Proof)
    (path : Bytes) (payload : Payload) (expectedRootHash : Bytes) (expectedKeySize : Int)
    (hinsane : ¬ (0 ≤ leafHeightOf p expectedKeySize ∧
      leafHeightOf p expectedKeySize ≤ treeHeightOf expectedKeySize)) :
    VerifyProof ops p path payload expectedRootHash expectedKeySize = false := by
  unfold VerifyProof
  by_cases h0 : 0 ≤ leafHeightOf p expectedKeySize
  · have h1 : ¬ leafHeightOf p expectedKeySize ≤ treeHeightOf expectedKeySize :=
      fun h => hinsane ⟨h0, h⟩
    simp [h0, h1]
  · simp [h0]

/-- C11: for every proof whose `p.Steps` is greater than the tree height
`8 * expectedKeySize` (the value the Go `int` computes), `VerifyProof` returns false for
every path, payload and root hash, and it does so whatever `p.Values`, `p.Flags` and
`p.Inclusion` hold and whatever the trie operations compute: none of them is read. -/
theorem VerifyProof_height_sanity_check {Payload : Type} (ops : TrieOps Payload) (p : Proof)
    (path : Bytes) (payload : Payload) (expectedRootHash : Bytes) (expectedKeySize : Int)
    (hsteps : p.Steps < 2 ^ 64)
    (hgt : treeHeightOf expectedKeySize < (p.Steps : Int)) :
    VerifyProof ops p path payload expectedRootHash expectedKeySize = false
    ∧ ∀ (ops' : TrieOps Payload) (values : List Bytes) (flags : Bytes) (inclusion : Bool),
        VerifyProof ops'
          { Values := values, Inclusion := inclusion, Flags := flags, Steps := p.Steps }
          path payload expectedRootHash expectedKeySize = false := by
  constructor
  · exact VerifyProof_false_of_insane ops p path payload expectedRootHash expectedKeySize
      (leafHeightOf_insane p expectedKeySize hsteps hgt)
  · intro ops' values flags inclusion
    exact VerifyProof_false_of_insane ops' _ path payload expectedRootHash expectedKeySize
      (leafHeightOf_insane _ expectedKeySize hsteps hgt)

/-- C11 at the sample proof of three steps with an empty key (tree height 0): the proof is
rejected although its recomputed root is asked for. -/
theorem VerifyProof_height_sanity_check_witness :
    (sampleProof.Steps < 2 ^ 64 ∧ treeHeightOf 0 < (sampleProof.Steps : Int))
    ∧ VerifyProof sampleOps sampleProof [0x40] [7]
        (recomputedRoot sampleOps sampleProof [0x40] [7] 0) 0 = false :=
  ⟨⟨by decide, by decide⟩,
    (VerifyProof_height_sanity_check sampleOps sampleProof [0x40] [7]
      (recomputedRoot sampleOps sampleProof [0x40] [7] 0) 0 (by decide) (by decide)).1⟩

end Verifier

/-! ### HotStuff signatures: packer, aggregators and signature types -/

namespace Hotstuff

theorem idLT_iff_lt : ∀ (a b : Identifier), idLT a b = true ↔ a < b
  | [], [] => by simp [idLT]
  | [], b :: bs => by simp [idLT, List.nil_lt_cons]
  | a :: as, [] => by
    simp only [idLT, Bool.false_eq_true, false_iff]
    exact List.Lex.not_nil_right _ _
  | a :: as, b :: bs => by
    have ih := idLT_iff_lt as bs
    simp only [idLT, Bool.or_eq_true, Bool.and_eq_true, decide_eq_true_eq, ih]
    constructor
    · rintro (h | ⟨rfl, h⟩)
      · exact List.Lex.rel h
      · exact List.Lex.cons h
    · intro h
      cases h with
      | rel h => exact Or.inl h
      | cons h => exact Or.inr ⟨rfl, h⟩

theorem idLE_iff_le (a b : Identifier) : idLE a b = true ↔ a ≤ b := by
  unfold idLE
  rw [Bool.not_eq_true', ← Bool.not_eq_true, idLT_iff_lt, not_lt]

theorem sortIDs_sorted (ids : List Identifier) : List.Sorted (· ≤ ·) (sortIDs ids) := by
  haveI : IsTotal Identifier (fun a b => idLE a b = true) :=
    ⟨fun a b => by rw [idLE_iff_le, idLE_iff_le]; exact le_total a b⟩
  haveI : IsTrans Identifier (fun a b => idLE a b = true) :=
    ⟨fun a b c => by rw [idLE_iff_le, idLE_iff_le, idLE_iff_le]; exact le_trans⟩
  have h := List.sorted_insertionSort (fun a b : Identifier => idLE a b = true) ids
  unfold sortIDs
  exact h.imp (fun hab => (idLE_iff_le _ _).mp hab)

theorem sortIDs_perm (ids : List Identifier) : (sortIDs ids).Perm ids :=
  List.perm_insertionSort _ ids

theorem fromBE_uint16BE (n : Nat) (h : n < 2 ^ 16) : fromBE (uint16BE n) = n := by
  simp only [fromBE, uint16BE, List.foldl_cons, List.foldl_nil]
  omega

theorem fromBE_uint32BE (n : Nat) (h : n < 2 ^ 32) : fromBE (uint32BE n) = n := by
  simp only [fromBE, uint32BE, List.foldl_cons, List.foldl_nil]
  omega

theorem takeBytes_append (n : Nat) (a rest : Bytes) (h : a.length = n) :
    takeBytes n (a ++ rest) = some (a, rest) := by
  subst h
  simp [takeBytes]

theorem readBlob_append (a rest : Bytes) (h : a.length < 2 ^ 32) :
    readBlob (uint32BE a.length ++ (a ++ rest)) = some (a, rest) := by
  unfold readBlob
  rw [takeBytes_append 4 (uint32BE a.length) (a ++ rest) rfl]
  simp only
  rw [fromBE_uint32BE a.length h]
  exact takeBytes_append a.length a rest rfl

theorem length_bitmapOf (bits : List Bool) : (bitmapOf bits).length = (bits.length + 7) / 8 := by
  simp [bitmapOf]

theorem bitAt_le_one (bits : List Bool) (i : Nat) : bitAt bits i ≤ 1 := by
  unfold bitAt
  split <;> omega

/-- Reading bit `i` of the bitmap of a list of bits gives back bit `i` of the list. -/
theorem testBit_bitmapOf (bits : List Bool) (i : Nat) (hi : i < bits.length) :
    testBit (bitmapOf bits) i = bits.getD i false := by
  have hk : i / 8 < (bits.length + 7) / 8 := by omega
  have hbyte : (bitmapOf bits).getD (i / 8) 0 = byteAt bits (i / 8) := by
    unfold bitmapOf
    rw [List.getD_eq_getElem?_getD, List.getElem?_map, List.getElem?_range hk]
    rfl
  have hbit : bits.getD i false = decide (bitAt bits i = 1) := by
    unfold bitAt
    cases bits.getD i false <;> simp
  unfold testBit
  rw [hbyte, hbit]
  unfold byteAt
  have h0 := bitAt_le_one bits (8 * (i / 8))
  have h1 := bitAt_le_one bits (8 * (i / 8) + 1)
  have h2 := bitAt_le_one bits (8 * (i / 8) + 2)
  have h3 := bitAt_le_one bits (8 * (i / 8) + 3)
  have h4 := bitAt_le_one bits (8 * (i / 8) + 4)
  have h5 := bitAt_le_one bits (8 * (i / 8) + 5)
  have h6 := bitAt_le_one bits (8 * (i / 8) + 6)
  have h7 := bitAt_le_one bits (8 * (i / 8) + 7)
  have hsplit : i = 8 * (i / 8) + i % 8 := by omega
  have hlt : i % 8 < 8 := Nat.mod_lt _ (by decide)
  generalize i / 8 = q at *
  generalize hr : i % 8 = r at *
  subst hsplit
  congr 1
  apply propext
  interval_cases r <;> simp only [Nat.add_zero, Nat.sub_zero, Nat.reducePow, Nat.reduceSub] <;>
    omega

/-- Decoding the bitmap of a list of bits over its length gives the list back. -/
theorem map_testBit_bitmapOf (bits : List Bool) :
    (List.range bits.length).map (testBit (bitmapOf bits)) = bits := by
  apply List.ext_getElem
  · simp
  · intro i h1 h2
    simp only [List.getElem_map, List.getElem_range]
    rw [testBit_bitmapOf bits i h2, List.getD_eq_getElem?_getD, List.getElem?_eq_getElem h2]
    rfl

theorem zip_map_filter {α : Type} (f : α → Bool) (l : List α) :
    ((l.zip (l.map f)).filter (fun entry => entry.2)).map (fun entry => entry.1)
      = l.filter f := by
  induction l with
  | nil => rfl
  | cons a l ih =>
    simp only [List.map_cons, List.zip_cons_cons, List.filter_cons]
    cases f a
    · simpa using ih
    · simpa using ih

/-- Decoding the membership bitmap of a signer set gives the committee members of the set,
in the committee's order. -/
theorem signersOfBitmap_signerBitmap (committee signers : List Identifier) :
    signersOfBitmap committee (signerBitmap committee signers)
      = committee.filter (fun id => decide (id ∈ signers)) := by
  unfold signersOfBitmap signerBitmap
  have h := map_testBit_bitmapOf (committee.map (fun id => decide (id ∈ signers)))
  rw [List.length_map] at h
  rw [h]
  exact zip_map_filter _ committee

/-- Sorting what a duplicate-free committee keeps of a strictly ascending list of its
members gives the list back. -/
theorem sortIDs_filter_mem {signers committee : List Identifier}
    (hnodup : committee.Nodup) (hsorted : List.Sorted (fun a b => a < b) signers)
    (hmem : ∀ id ∈ signers, id ∈ committee) :
    sortIDs (committee.filter (fun id => decide (id ∈ signers))) = signers := by
  have hperm : (sortIDs (committee.filter (fun id => decide (id ∈ signers)))).Perm signers := by
    refine (sortIDs_perm _).trans ?_
    rw [List.perm_ext_iff_of_nodup (hnodup.filter _) hsorted.nodup]
    intro id
    simp only [List.mem_filter, decide_eq_true_eq]
    exact ⟨fun h => h.2, fun h => ⟨hmem id h, h⟩⟩
  have hle : List.Sorted (fun a b : Identifier => a ≤ b) signers :=
    hsorted.imp (fun h => le_of_lt h)
  exact List.eq_of_perm_of_sorted hperm (sortIDs_sorted _) hle

/-- Unpacking what `Pack` produced for a valid record gives the record back. -/
theorem Unpack_Pack_of_valid (committee : Identifier → List Identifier) (blockID : Identifier)
    (sig : BlockSignatureData) (hvalid : validSignatureData (committee blockID) sig) :
    Unpack committee blockID (Pack committee blockID sig).1 (Pack committee blockID sig).2
      = Except.ok sig := by
  obtain ⟨hnodup, hsortS, hmemS, hsortB, hmemB, hS, hB, hlS, hlB, hlR⟩ := hvalid
  have hdecS : sortIDs (signersOfBitmap (committee blockID)
      (signerBitmap (committee blockID) sig.StakingSigners)) = sig.StakingSigners := by
    rw [signersOfBitmap_signerBitmap, sortIDs_filter_mem hnodup hsortS hmemS]
  have hdecB : sortIDs (signersOfBitmap (committee blockID)
      (signerBitmap (committee blockID) sig.RandomBeaconSigners))
        = sig.RandomBeaconSigners := by
    rw [signersOfBitmap_signerBitmap, sortIDs_filter_mem hnodup hsortB hmemB]
  have hlenS : (signerBitmap (committee blockID) sig.StakingSigners).length
      = ((committee blockID).length + 7) / 8 := by
    simp [signerBitmap, length_bitmapOf]
  have hlenB : (signerBitmap (committee blockID) sig.RandomBeaconSigners).length
      = ((committee blockID).length + 7) / 8 := by
    simp [signerBitmap, length_bitmapOf]
  have hlast : readBlob (uint32BE sig.ReconstructedRandomBeaconSig.length
      ++ sig.ReconstructedRandomBeaconSig) = some (sig.ReconstructedRandomBeaconSig, []) := by
    have h := readBlob_append sig.ReconstructedRandomBeaconSig [] hlR
    rwa [List.append_nil] at h
  unfold Unpack Pack
  simp only [takeBytes_append 1 [1] _ rfl, takeBytes_append 2 (uint16BE _) _ rfl,
    takeBytes_append _ _ _ hlenS, takeBytes_append _ _ _ hlenB,
    readBlob_append _ _ hlS, readBlob_append _ _ hlB, hlast,
    fromBE_uint16BE _ hS, fromBE_uint16BE _ hB, hdecS, hdecB]
  simp

/-- C4: round-trip law of the packer. For every block ID and every valid
`BlockSignatureData` (signer lists ascending by the raw bytes of the identifiers, made of
members of the block's committee, whatever the order in which the committee is declared),
`Unpack` applied to the signer IDs and the bytes produced by `Pack` returns a record equal
to the packed one, field for field. -/
theorem Packer_round_trip (committee : Identifier → List Identifier) (blockID : Identifier)
    (sig : BlockSignatureData) (hvalid : validSignatureData (committee blockID) sig) :
    Unpack committee blockID (Pack committee blockID sig).1 (Pack committee blockID sig).2
      = Except.ok sig :=
  Unpack_Pack_of_valid committee blockID sig hvalid

/-- C4 in scenario S5: the record with staking signers `A`, `B`, `C` and beacon signers
`A`, `C`, `D` is valid for the committee declared as `D`, `B`, `A`, `C` and unpacks to
itself. -/
theorem Packer_round_trip_witness :
    validSignatureData (sampleCommittee [0]) sampleSignatureData
    ∧ Unpack sampleCommittee [0] (Pack sampleCommittee [0] sampleSignatureData).1
        (Pack sampleCommittee [0] sampleSignatureData).2 = Except.ok sampleSignatureData :=
  ⟨by unfold validSignatureData; decide,
    Packer_round_trip sampleCommittee [0] sampleSignatureData
      (by unfold validSignatureData; decide)⟩

/-- A call of the staking `TrustedAdd` either returns no error, the signer being new and the
share appended, or returns an error and leaves the state as it was. -/
theorem WeightedSignatureAggregator.TrustedAdd_cases (s : WeightedSignatureAggregator)
    (signerID : Identifier) (sig : Bytes) :
    ((s.TrustedAdd signerID sig).2.2 = none ∧ signerID ∉ s.signers
        ∧ (s.lookup signerID).isSome = true
        ∧ (s.TrustedAdd signerID sig).1.shares = s.shares ++ [(signerID, sig)]
        ∧ (s.TrustedAdd signerID sig).1.phase = s.phase
        ∧ (s.TrustedAdd signerID sig).1.registry = s.registry
        ∧ (s.TrustedAdd signerID sig).1.threshold = s.threshold)
    ∨ ((s.TrustedAdd signerID sig).2.2 ≠ none ∧ (s.TrustedAdd signerID sig).1 = s) := by
  unfold WeightedSignatureAggregator.TrustedAdd
  cases hp : s.phase with
  | Aggregated ids agg => right; simp
  | Accepting =>
    by_cases hdup : signerID ∈ s.signers
    · right
      simp [hdup]
    · cases hk : s.lookup signerID with
      | none => right; simp [hdup]
      | some key => left; simp [hdup, hp]
  | Failed =>
    by_cases hdup : signerID ∈ s.signers
    · right
      simp [hdup]
    · cases hk : s.lookup signerID with
      | none => right; simp [hdup]
      | some key => left; simp [hdup, hp]

/-- A signer that has contributed is answered with an error, `AlreadyAggregated` after a
successful `aggregate` and `DuplicateSigner` before, with the weight before the call and an
unchanged state. -/
theorem WeightedSignatureAggregator.TrustedAdd_of_mem (s : WeightedSignatureAggregator)
    (signerID : Identifier) (sig : Bytes) (hdup : signerID ∈ s.signers) :
    s.TrustedAdd signerID sig
      = (s, s.totalWeight,
          some (if s.aggregated = true then AggError.AlreadyAggregated
            else AggError.DuplicateSigner)) := by
  unfold WeightedSignatureAggregator.TrustedAdd WeightedSignatureAggregator.aggregated
  cases hp : s.phase <;> simp [hdup]

/-- C5, as stated, fails: on the aggregator of scenario S6 after its successful
`Aggregate`, signer `A` has contributed, and a further add of `A` is answered with
`AlreadyAggregated`, not with `DuplicateSigner`. -/
theorem TrustedAdd_duplicate_after_aggregate :
    [1] ∈ aggregatedAggregator.signers
    ∧ (aggregatedAggregator.TrustedAdd [1] [52]).2.2 = some AggError.AlreadyAggregated
    ∧ (aggregatedAggregator.TrustedAdd [1] [52]).2.2 ≠ some AggError.DuplicateSigner := by
  decide

/-- C5, amended: for every state of the aggregator and every signer that has already
contributed a signature, `TrustedAdd` returns an error, `DuplicateSigner` as long as no
`aggregate` has succeeded and `AlreadyAggregated` after a successful `aggregate`; the
returned total weight is the total weight before the call, `TotalWeight()` is unchanged and
so is the whole state. -/
theorem TrustedAdd_duplicate_signer_error (s : WeightedSignatureAggregator)
    (signerID : Identifier) (sig : Bytes) (hdup : signerID ∈ s.signers) :
    (s.aggregated = false →
      (s.TrustedAdd signerID sig).2.2 = some AggError.DuplicateSigner)
    ∧ (s.aggregated = true →
      (s.TrustedAdd signerID sig).2.2 = some AggError.AlreadyAggregated)
    ∧ (s.TrustedAdd signerID sig).2.1 = s.TotalWeight
    ∧ (s.TrustedAdd signerID sig).1.TotalWeight = s.TotalWeight
    ∧ (s.TrustedAdd signerID sig).1 = s := by
  rw [WeightedSignatureAggregator.TrustedAdd_of_mem s signerID sig hdup]
  refine ⟨?_, ?_, rfl, rfl, rfl⟩
  · intro h
    simp [h]
  · intro h
    simp [h]

/-- C5, amended, in scenario S3: signer `A` has contributed to an aggregator that has not
aggregated, and a second add of `A` is answered with `DuplicateSigner` and the weight 25 of
before. -/
theorem TrustedAdd_duplicate_signer_error_witness :
    ([1] ∈ sampleAggregator.signers ∧ sampleAggregator.aggregated = false)
    ∧ (sampleAggregator.TrustedAdd [1] [52]).2.2 = some AggError.DuplicateSigner
    ∧ (sampleAggregator.TrustedAdd [1] [52]).2.1 = 25
    ∧ (sampleAggregator.TrustedAdd [1] [52]).1.TotalWeight = 25 :=
  ⟨⟨by decide, by decide⟩,
    (TrustedAdd_duplicate_signer_error sampleAggregator [1] [52] (by decide)).1 (by decide),
    by decide, by decide⟩

/-- C6, as stated, fails: at a reconstructor that discards late shares, with both
thresholds reached, the beacon share of the known new signer `D` is answered with
`hasSufficientWeight = true` and no error although the share was not added. -/
theorem CombinedSigAggregator_TrustedAdd_discarded_share :
    (discardingCombined.TrustedAdd [4] [64] SigTypeRandomBeacon).2 = (true, none)
    ∧ (discardingCombined.TrustedAdd [4] [64] SigTypeRandomBeacon).1 = discardingCombined
    ∧ ¬ CombinedSigAggregator.shareAdded discardingCombined
        (discardingCombined.TrustedAdd [4] [64] SigTypeRandomBeacon).1 [4] [64]
        SigTypeRandomBeacon := by
  unfold CombinedSigAggregator.shareAdded
  decide

/-- C6, amended: the combined `TrustedAdd` returns `hasSufficientWeight = true` with no
error if and only if the share was added, or was a beacon share arriving after the beacon
threshold at an implementation that discards such shares, and in the state after the call
the collected staking weight has reached the staking threshold and the number of beacon
shares the beacon threshold; whenever the share is neither added nor so discarded, also for
`SigTypeInvalid`, it returns `false` with an error; and at an implementation that accepts
late shares, `true` with no error is returned exactly when the share was added and both
thresholds are reached. -/
theorem CombinedSigAggregator_TrustedAdd_sufficient (c : CombinedSigAggregator)
    (signerID : Identifier) (sig : Bytes) (sigType : SigType) :
    (((c.TrustedAdd signerID sig sigType).2.1 = true
        ∧ (c.TrustedAdd signerID sig sigType).2.2 = none)
      ↔ ((CombinedSigAggregator.shareAdded c (c.TrustedAdd signerID sig sigType).1
              signerID sig sigType
            ∨ CombinedSigAggregator.shareDiscarded c (c.TrustedAdd signerID sig sigType).1
              signerID sigType)
          ∧ (c.TrustedAdd signerID sig sigType).1.staking.threshold
              ≤ (c.TrustedAdd signerID sig sigType).1.staking.TotalWeight
          ∧ (c.TrustedAdd signerID sig sigType).1.beacon.threshold
              ≤ (c.TrustedAdd signerID sig sigType).1.beacon.shares.length))
    ∧ (¬ (CombinedSigAggregator.shareAdded c (c.TrustedAdd signerID sig sigType).1
              signerID sig sigType
            ∨ CombinedSigAggregator.shareDiscarded c (c.TrustedAdd signerID sig sigType).1
              signerID sigType)
        → (c.TrustedAdd signerID sig sigType).2.1 = false
          ∧ (c.TrustedAdd signerID sig sigType).2.2 ≠ none)
    ∧ ((c.TrustedAdd signerID sig sigType).2.2 ≠ none
        → (c.TrustedAdd signerID sig sigType).2.1 = false)
    ∧ (sigType = SigTypeInvalid
        → c.TrustedAdd signerID sig sigType = (c, false, some AggError.InvalidSigType))
    ∧ (c.beacon.discardsLateShares = false →
        (((c.TrustedAdd signerID sig sigType).2.1 = true
            ∧ (c.TrustedAdd signerID sig sigType).2.2 = none)
          ↔ (CombinedSigAggregator.shareAdded c (c.TrustedAdd signerID sig sigType).1
                signerID sig sigType
              ∧ (c.TrustedAdd signerID sig sigType).1.staking.threshold
                  ≤ (c.TrustedAdd signerID sig sigType).1.staking.TotalWeight
              ∧ (c.TrustedAdd signerID sig sigType).1.beacon.threshold
                  ≤ (c.TrustedAdd signerID sig sigType).1.beacon.shares.length))) := by
  have hne : ∀ (l : List (Identifier × Bytes)) (x : Identifier × Bytes), l ≠ l ++ [x] := by
    intro l x h
    have := congrArg List.length h
    simp at this
  by_cases hs : sigType = SigTypeStaking
  · subst hs
    have h01 : SigTypeStaking ≠ SigTypeRandomBeacon := by decide
    have h02 : SigTypeStaking ≠ SigTypeInvalid := by decide
    rcases WeightedSignatureAggregator.TrustedAdd_cases c.staking signerID sig with
      ⟨herr, hnew, _, hshares, _, _, _⟩ | ⟨herr, hsame⟩
    · rcases hr : c.staking.TrustedAdd signerID sig with ⟨st, w, e⟩
      rw [hr] at herr hshares
      simp only at herr hshares
      subst herr
      simp only [CombinedSigAggregator.TrustedAdd, hr, if_true,
        CombinedSigAggregator.shareAdded, CombinedSigAggregator.shareDiscarded,
        CombinedSigAggregator.HasSufficientWeight,
        RandomBeaconReconstructor.HasSufficientShares, hshares, hnew, h01, h02]
      simp
    · rcases hr : c.staking.TrustedAdd signerID sig with ⟨st, w, e⟩
      rw [hr] at herr hsame
      simp only at herr hsame
      subst hsame
      cases e with
      | none => exact absurd rfl herr
      | some err =>
        simp only [CombinedSigAggregator.TrustedAdd, hr, if_true,
          CombinedSigAggregator.shareAdded, CombinedSigAggregator.shareDiscarded, h01, h02]
        simp [hne]
  · by_cases hb : sigType = SigTypeRandomBeacon
    · subst hb
      have h12 : SigTypeRandomBeacon ≠ SigTypeInvalid := by decide
      simp only [CombinedSigAggregator.TrustedAdd, if_neg hs, if_true,
        RandomBeaconReconstructor.TrustedAdd, CombinedSigAggregator.shareAdded,
        CombinedSigAggregator.shareDiscarded, h12]
      by_cases hdup : signerID ∈ c.beacon.signers
      · simp [hdup, hs, hne]
      · cases hk : c.beacon.lookupBeacon signerID with
        | none => simp [hdup, hs, hne]
        | some key =>
          by_cases hlate : c.beacon.threshold ≤ c.beacon.shares.length
          · cases hd : c.beacon.discardsLateShares
            · simp [hdup, hs, hd, hlate, CombinedSigAggregator.HasSufficientWeight,
                RandomBeaconReconstructor.HasSufficientShares]
            · simp [hdup, hs, hd, hlate, hne, CombinedSigAggregator.HasSufficientWeight,
                RandomBeaconReconstructor.HasSufficientShares]
          · simp [hdup, hs, hlate, CombinedSigAggregator.HasSufficientWeight,
              RandomBeaconReconstructor.HasSufficientShares]
    · simp [CombinedSigAggregator.TrustedAdd, CombinedSigAggregator.shareAdded,
        CombinedSigAggregator.shareDiscarded, hs, hb]

/-- What a sequence of `TrustedAdd` calls does to a state that is accepting and whose
signers are distinct: it stays so, keeps its registry, and its signers are those of before
and the signers of the calls that the registry knows. -/
theorem WeightedSignatureAggregator.addAll_spec (adds : List (Identifier × Bytes)) :
    ∀ (s : WeightedSignatureAggregator), s.phase = AggPhase.Accepting → s.signers.Nodup →
      (s.addAll adds).phase = AggPhase.Accepting
      ∧ (s.addAll adds).registry = s.registry
      ∧ (s.addAll adds).signers.Nodup
      ∧ ∀ id, id ∈ (s.addAll adds).signers
          ↔ (id ∈ s.signers ∨ (id ∈ adds.map Prod.fst ∧ (s.lookup id).isSome = true)) := by
  induction adds with
  | nil =>
    intro s hp hn
    simp [WeightedSignatureAggregator.addAll, hp, hn]
  | cons add rest ih =>
    intro s hp hn
    have hstep : s.addAll (add :: rest) = (s.TrustedAdd add.1 add.2).1.addAll rest := rfl
    rw [hstep]
    rcases WeightedSignatureAggregator.TrustedAdd_cases s add.1 add.2 with
      ⟨_, hnew, hknown, hshares, hphase, hreg, _⟩ | ⟨herr, hsame⟩
    · have hsig : (s.TrustedAdd add.1 add.2).1.signers = s.signers ++ [add.1] := by
        simp [WeightedSignatureAggregator.signers, hshares]
      have hn2 : (s.TrustedAdd add.1 add.2).1.signers.Nodup := by
        rw [hsig]
        exact List.Nodup.append hn (List.nodup_singleton _) (by simpa using hnew)
      obtain ⟨h1, h2, h3, h4⟩ := ih _ (hphase.trans hp) hn2
      refine ⟨h1, h2.trans hreg, h3, ?_⟩
      intro id
      have hl : (s.TrustedAdd add.1 add.2).1.lookup id = s.lookup id := by
        simp [WeightedSignatureAggregator.lookup, hreg]
      rw [h4 id, hsig, hl]
      simp only [List.mem_append, List.mem_singleton, List.map_cons, List.mem_cons,
        List.not_mem_nil, or_false]
      constructor
      · rintro ((h | h) | ⟨h, hk⟩)
        · exact Or.inl h
        · exact Or.inr ⟨Or.inl h, by rw [h]; exact hknown⟩
        · exact Or.inr ⟨Or.inr h, hk⟩
      · rintro (h | ⟨h | h, hk⟩)
        · exact Or.inl (Or.inl h)
        · exact Or.inl (Or.inr h)
        · exact Or.inr ⟨h, hk⟩
    · rw [hsame]
      obtain ⟨h1, h2, h3, h4⟩ := ih s hp hn
      refine ⟨h1, h2, h3, ?_⟩
      intro id
      rw [h4 id]
      simp only [List.map_cons, List.mem_cons]
      constructor
      · rintro (h | ⟨h, hk⟩)
        · exact Or.inl h
        · exact Or.inr ⟨Or.inr h, hk⟩
      · rintro (h | ⟨h | h, hk⟩)
        · exact Or.inl h
        · -- the call for `id` itself returned an error although the registry knows `id`
          -- and the state is accepting: `id` had contributed before
          left
          by_contra hnot
          apply herr
          subst h
          unfold WeightedSignatureAggregator.TrustedAdd
          rw [hp]
          simp only [if_neg hnot]
          cases hlk : s.lookup add.1 with
          | none => rw [hlk] at hk; simp at hk
          | some key => simp
        · exact Or.inr ⟨h, hk⟩

/-- A successful `Aggregate` on an accepting state returns the signers sorted. -/
theorem WeightedSignatureAggregator.Aggregate_ok_of_accepting (crypto : Crypto)
    (s : WeightedSignatureAggregator) (hp : s.phase = AggPhase.Accepting)
    (signerIDs : List Identifier) (aggregate : Bytes)
    (hok : (s.Aggregate crypto).2 = Except.ok (signerIDs, aggregate)) :
    signerIDs = sortIDs s.signers := by
  unfold WeightedSignatureAggregator.Aggregate at hok
  rw [hp] at hok
  simp only at hok
  split_ifs at hok with h1 h2
  all_goals simp at hok
  exact hok.1.symm

/-- The signer list of a successful `Aggregate` after a sequence of adds on a fresh
aggregator: sorted strictly ascending, without repetition, and made of the signers of the
adds that the registry knows. -/
theorem WeightedSignatureAggregator.Aggregate_addAll (crypto : Crypto)
    (registry : List WeightedKey) (message : Bytes) (threshold : Nat)
    (adds : List (Identifier × Bytes)) (signerIDs : List Identifier) (aggregate : Bytes)
    (hok : (((WeightedSignatureAggregator.new registry message threshold).addAll
      adds).Aggregate crypto).2 = Except.ok (signerIDs, aggregate)) :
    List.Sorted (· < ·) signerIDs
    ∧ signerIDs.Perm
        ((WeightedSignatureAggregator.new registry message threshold).addAll adds).signers
    ∧ ∀ id, id ∈ signerIDs
        ↔ (id ∈ adds.map Prod.fst
          ∧ ((WeightedSignatureAggregator.new registry message threshold).lookup id).isSome
              = true) := by
  obtain ⟨h1, _, h3, h4⟩ := WeightedSignatureAggregator.addAll_spec adds
    (WeightedSignatureAggregator.new registry message threshold) rfl
    (by simp [WeightedSignatureAggregator.new, WeightedSignatureAggregator.signers])
  have hids := WeightedSignatureAggregator.Aggregate_ok_of_accepting crypto _ h1 _ _ hok
  have hperm := sortIDs_perm
    ((WeightedSignatureAggregator.new registry message threshold).addAll adds).signers
  rw [← hids] at hperm
  refine ⟨?_, hperm, ?_⟩
  · have hs := sortIDs_sorted
      ((WeightedSignatureAggregator.new registry message threshold).addAll adds).signers
    rw [← hids] at hs
    exact hs.lt_of_le (hperm.nodup_iff.mpr h3)
  · intro id
    rw [hperm.mem_iff, h4 id]
    simp [WeightedSignatureAggregator.new, WeightedSignatureAggregator.signers]

/-- C7: whatever the order in which signers were added to a fresh aggregator, the signer
list returned by a successful `Aggregate` is sorted ascending by the raw bytes of the
identifiers and holds exactly the signers that were added (those of the adds that the
registry knows, each once); any reordering of the adds returns the same list. -/
theorem Aggregate_canonical_order (crypto : Crypto) (registry : List WeightedKey)
    (message : Bytes) (threshold : Nat) (adds : List (Identifier × Bytes))
    (signerIDs : List Identifier) (aggregate : Bytes)
    (hok : (((WeightedSignatureAggregator.new registry message threshold).addAll
      adds).Aggregate crypto).2 = Except.ok (signerIDs, aggregate)) :
    List.Sorted (· < ·) signerIDs
    ∧ signerIDs.Perm
        ((WeightedSignatureAggregator.new registry message threshold).addAll adds).signers
    ∧ (∀ id, id ∈ signerIDs
        ↔ (id ∈ adds.map Prod.fst
          ∧ ((WeightedSignatureAggregator.new registry message threshold).lookup id).isSome
              = true))
    ∧ (∀ (adds' : List (Identifier × Bytes)) (signerIDs' : List Identifier)
        (aggregate' : Bytes), adds'.Perm adds →
        (((WeightedSignatureAggregator.new registry message threshold).addAll
          adds').Aggregate crypto).2 = Except.ok (signerIDs', aggregate') →
        signerIDs' = signerIDs) := by
  obtain ⟨hs, hperm, hmem⟩ := WeightedSignatureAggregator.Aggregate_addAll crypto registry
    message threshold adds signerIDs aggregate hok
  refine ⟨hs, hperm, hmem, ?_⟩
  intro adds' signerIDs' aggregate' hp hok'
  obtain ⟨hs', _, hmem'⟩ := WeightedSignatureAggregator.Aggregate_addAll crypto registry
    message threshold adds' signerIDs' aggregate' hok'
  have hpp : signerIDs'.Perm signerIDs := by
    rw [List.perm_ext_iff_of_nodup hs'.nodup hs.nodup]
    intro id
    rw [hmem' id, hmem id, (hp.map Prod.fst).mem_iff]
  exact List.eq_of_perm_of_sorted hpp hs' hs

/-- C7 in scenario S6: signers added in the order `D`, `A`, `C`, `B` are returned as
`A`, `B`, `C`, `D`. -/
theorem Aggregate_canonical_order_witness :
    (((WeightedSignatureAggregator.new sampleRegistry [9] 67).addAll
        sampleAdds).Aggregate sampleCrypto).2
      = Except.ok ([[1], [2], [3], [4]], [51, 52, 53, 54])
    ∧ List.Sorted (· < ·) ([[1], [2], [3], [4]] : List Identifier) :=
  ⟨rfl, (Aggregate_canonical_order sampleCrypto sampleRegistry [9] 67 sampleAdds
    [[1], [2], [3], [4]] [51, 52, 53, 54] rfl).1⟩

/-- C8, as stated, fails: the value 3 of the integer type `SigType` is none of
`SigTypeStaking`, `SigTypeRandomBeacon`, `SigTypeInvalid`. -/
theorem SigType_three_is_none_of_the_constants :
    ¬ ((3 : SigType) = SigTypeStaking ∨ (3 : SigType) = SigTypeRandomBeacon
        ∨ (3 : SigType) = SigTypeInvalid) := by
  decide

/-- C8, amended: `SigType` is an integer discriminator with three named values,
`SigTypeStaking = 0`, `SigTypeRandomBeacon = 1` and `SigTypeInvalid = 2`, which are pairwise
distinct; a `SigType` value equals one of them exactly when it lies between 0 and 2. -/
theorem SigType_three_named_values :
    (SigTypeStaking = 0 ∧ SigTypeRandomBeacon = 1 ∧ SigTypeInvalid = 2)
    ∧ (SigTypeStaking ≠ SigTypeRandomBeacon ∧ SigTypeStaking ≠ SigTypeInvalid
        ∧ SigTypeRandomBeacon ≠ SigTypeInvalid)
    ∧ (∀ t : SigType,
        (t = SigTypeStaking ∨ t = SigTypeRandomBeacon ∨ t = SigTypeInvalid)
          ↔ (0 ≤ t ∧ t ≤ 2)) := by
  refine ⟨⟨rfl, rfl, rfl⟩, ⟨by decide, by decide, by decide⟩, ?_⟩
  intro (t : Int)
  show (t = (0 : Int) ∨ t = (1 : Int) ∨ t = (2 : Int)) ↔ (0 ≤ t ∧ t ≤ 2)
  constructor
  · intro h
    rcases h with h | h | h <;> omega
  · intro h
    omega

end Hotstuff

/-! ### Block headers and block proposals -/

namespace Types

/-- C9: `NewBlockHeader` returns a `BlockProposal`, the same one as `NewBlockProposal`: the
record whose `Block` is `block` and whose `Signature` is `sig`. -/
theorem NewBlockHeader_eq_NewBlockProposal {Block Signature : Type}
    (block : Option Block) (sig : Option Signature) :
    NewBlockHeader block sig = NewBlockProposal block sig
    ∧ (NewBlockHeader block sig).Block = block
    ∧ (NewBlockHeader block sig).Signature = sig :=
  ⟨rfl, rfl, rfl⟩

/-- C10: on a non-nil block `b`, the accessors `QC`, `View`, `BlockID` and `Height` of
`BlockHeader{b, s}` and of `BlockProposal{b, s}` return the same values, `b.QC`, `b.View`,
`b.BlockID()` and `b.Height`, for every signature `s`. -/
theorem BlockHeader_accessors_eq_BlockProposal {Block Signature QuorumCertificate : Type}
    (ops : BlockOps Block QuorumCertificate) (b : Block) (s : Option Signature) :
    (BlockHeader.QC ops ⟨some b, s⟩ = some (ops.QC b)
      ∧ BlockProposal.QC ops ⟨some b, s⟩ = some (ops.QC b))
    ∧ (BlockHeader.View ops ⟨some b, s⟩ = some (ops.View b)
      ∧ BlockProposal.View ops ⟨some b, s⟩ = some (ops.View b))
    ∧ (BlockHeader.BlockID ops ⟨some b, s⟩ = ops.BlockID (some b)
      ∧ BlockProposal.BlockID ops ⟨some b, s⟩ = ops.BlockID (some b))
    ∧ (BlockHeader.Height ops ⟨some b, s⟩ = some (ops.Height b)
      ∧ BlockProposal.Height ops ⟨some b, s⟩ = some (ops.Height b)) :=
  ⟨⟨rfl, rfl⟩, ⟨rfl, rfl⟩, ⟨rfl, rfl⟩, ⟨rfl, rfl⟩⟩

end Types

/-! ### World state: `NewWorldState`, lookups and `InsertTransaction` -/

namespace Data

variable {Hash Block Collection Transaction : Type}

theorem wrapInt_natCast_of_lt (n : Nat) (h : n < 2 ^ 63) : wrapInt (n : Int) = (n : Int) := by
  unfold wrapInt
  omega

theorem wrapInt_natCast_of_ge (n : Nat) (h0 : 2 ^ 63 ≤ n) (h1 : n < 2 ^ 64) :
    wrapInt (n : Int) = (n : Int) - 2 ^ 64 := by
  unfold wrapInt
  omega

/-- A number below the length of the chain gets the block at that index and no error. -/
theorem WorldState.GetBlockByNumber_of_lt [Inhabited Block]
    (s : WorldState Hash Block Collection Transaction) (n : Nat) (hn : n < 2 ^ 64)
    (hlt : n < s.Blockchain.length) :
    s.GetBlockByNumber n = some (s, s.Blockchain[n], none) := by
  have hw : wrapInt (n : Int) < (s.Blockchain.length : Int) := by
    unfold wrapInt
    omega
  unfold WorldState.GetBlockByNumber
  simp only [hw, if_true, List.getElem?_eq_getElem hlt]

/-- A number from the length of the chain on and below `2^63` gets the error and the empty
block. -/
theorem WorldState.GetBlockByNumber_of_ge [Inhabited Block]
    (s : WorldState Hash Block Collection Transaction) (n : Nat) (hn : n < 2 ^ 63)
    (hge : s.Blockchain.length ≤ n) :
    s.GetBlockByNumber n
      = some (s, default,
          some "invalid Block number: Block number exceeds blockchain length") := by
  have hw : ¬ wrapInt (n : Int) < (s.Blockchain.length : Int) := by
    rw [wrapInt_natCast_of_lt n hn]
    omega
  unfold WorldState.GetBlockByNumber
  simp only [hw, if_false]

/-- A number from `2^63` on converts to a negative `int`, passes the comparison with the
length of the chain, and the index expression panics when the number is not an index of
the chain. -/
theorem WorldState.GetBlockByNumber_of_huge [Inhabited Block]
    (s : WorldState Hash Block Collection Transaction) (n : Nat) (h0 : 2 ^ 63 ≤ n)
    (h1 : n < 2 ^ 64) (hge : s.Blockchain.length ≤ n) :
    s.GetBlockByNumber n = none := by
  have hw : wrapInt (n : Int) < (s.Blockchain.length : Int) := by
    rw [wrapInt_natCast_of_ge n h0 h1]
    omega
  unfold WorldState.GetBlockByNumber
  simp only [hw, if_true, List.getElem?_eq_none hge]

/-- C12, evaluated on the code: the maps of the new world state contain no key and its
chain has length 0; `GetBlockByHash`, `GetCollection` and `GetTransaction` return an error
for every hash and `GetBlockByNumber` returns an error for every number below `2^63`; for
the numbers from `2^63` on, `2^63` itself among them, `GetBlockByNumber` does not return an
error but panics. -/
theorem NewWorldState_lookups [Inhabited Block] [Inhabited Collection]
    [Inhabited Transaction] :
    ((∀ h : Hash, (NewWorldState : WorldState Hash Block Collection Transaction).Blocks.lookup h
          = none)
      ∧ (∀ h : Hash,
          (NewWorldState : WorldState Hash Block Collection Transaction).Collections.lookup h
            = none)
      ∧ (∀ h : Hash,
          (NewWorldState : WorldState Hash Block Collection Transaction).Transactions.lookup h
            = none)
      ∧ (NewWorldState : WorldState Hash Block Collection Transaction).Blockchain.length = 0)
    ∧ (∀ h : Hash,
        ((NewWorldState : WorldState Hash Block Collection Transaction).GetBlockByHash h).2.2
            ≠ none
        ∧ ((NewWorldState : WorldState Hash Block Collection Transaction).GetCollection h).2.2
            ≠ none
        ∧ ((NewWorldState : WorldState Hash Block Collection Transaction).GetTransaction h).2.2
            ≠ none)
    ∧ (∀ n : Nat, n < 2 ^ 63 →
        (NewWorldState : WorldState Hash Block Collection Transaction).GetBlockByNumber n
          = some (NewWorldState, default,
              some "invalid Block number: Block number exceeds blockchain length"))
    ∧ (∀ n : Nat, 2 ^ 63 ≤ n → n < 2 ^ 64 →
        (NewWorldState : WorldState Hash Block Collection Transaction).GetBlockByNumber n
          = none)
    ∧ (NewWorldState : WorldState Hash Block Collection Transaction).GetBlockByNumber
        9223372036854775808 = none := by
  refine ⟨⟨fun _ => rfl, fun _ => rfl, fun _ => rfl, rfl⟩, ?_, ?_, ?_, ?_⟩
  · intro h
    simp [WorldState.GetBlockByHash, WorldState.GetCollection, WorldState.GetTransaction,
      NewWorldState, GoMap.make, GoMap.lookup]
  · intro n hn
    exact WorldState.GetBlockByNumber_of_ge _ n hn (Nat.zero_le n)
  · intro n h0 h1
    exact WorldState.GetBlockByNumber_of_huge _ n h0 h1 (Nat.zero_le n)
  · exact WorldState.GetBlockByNumber_of_huge _ 9223372036854775808 (by norm_num)
      (by norm_num) (Nat.zero_le _)

/-- C13, evaluated on the code: for every world state and every `uint64` number `n`, a
number below the length of the chain gets the block at index `n` and no error, and a number
from the length on and below `2^63` gets an error and the empty block; a number from `2^63`
on that is not an index of the chain, such as `2^64 - 1` on the sample state, gets no error
but a panic. -/
theorem GetBlockByNumber_by_range [Inhabited Block]
    (s : WorldState Hash Block Collection Transaction) (n : Nat) :
    (n < 2 ^ 64 → ∀ hlt : n < s.Blockchain.length,
        s.GetBlockByNumber n = some (s, s.Blockchain[n], none))
    ∧ (n < 2 ^ 63 → s.Blockchain.length ≤ n →
        s.GetBlockByNumber n
          = some (s, default,
              some "invalid Block number: Block number exceeds blockchain length"))
    ∧ (2 ^ 63 ≤ n → n < 2 ^ 64 → s.Blockchain.length ≤ n → s.GetBlockByNumber n = none)
    ∧ sampleState.Blockchain.length ≤ 18446744073709551615
    ∧ sampleState.GetBlockByNumber 18446744073709551615 = none :=
  ⟨fun hn hlt => WorldState.GetBlockByNumber_of_lt s n hn hlt,
    fun hn hge => WorldState.GetBlockByNumber_of_ge s n hn hge,
    fun h0 h1 hge => WorldState.GetBlockByNumber_of_huge s n h0 h1 hge,
    by decide,
    WorldState.GetBlockByNumber_of_huge sampleState 18446744073709551615 (by norm_num)
      (by norm_num) (by decide)⟩

/-- C14: for every world state `s` and hash `h`, each of `GetBlockByHash`, `GetCollection`
and `GetTransaction` returns an error exactly when `h` is not a key of its map, returns the
value stored under `h` with no error when `h` is a key, returns the empty value with the
error otherwise, and leaves `s` as it was. -/
theorem lookups_by_hash [Inhabited Block] [Inhabited Collection] [Inhabited Transaction]
    (s : WorldState Hash Block Collection Transaction) (h : Hash) :
    (((s.GetBlockByHash h).2.2 ≠ none ↔ s.Blocks.lookup h = none)
      ∧ (∀ block, s.Blocks.lookup h = some block → (s.GetBlockByHash h).2 = (block, none))
      ∧ (s.Blocks.lookup h = none → (s.GetBlockByHash h).2.1 = default)
      ∧ (s.GetBlockByHash h).1 = s)
    ∧ (((s.GetCollection h).2.2 ≠ none ↔ s.Collections.lookup h = none)
      ∧ (∀ collection, s.Collections.lookup h = some collection →
          (s.GetCollection h).2 = (collection, none))
      ∧ (s.Collections.lookup h = none → (s.GetCollection h).2.1 = default)
      ∧ (s.GetCollection h).1 = s)
    ∧ (((s.GetTransaction h).2.2 ≠ none ↔ s.Transactions.lookup h = none)
      ∧ (∀ tx, s.Transactions.lookup h = some tx → (s.GetTransaction h).2 = (tx, none))
      ∧ (s.Transactions.lookup h = none → (s.GetTransaction h).2.1 = default)
      ∧ (s.GetTransaction h).1 = s) := by
  refine ⟨?_, ?_, ?_⟩
  · unfold WorldState.GetBlockByHash
    cases hb : s.Blocks.lookup h <;> simp
  · unfold WorldState.GetCollection
    cases hc : s.Collections.lookup h <;> simp
  · unfold WorldState.GetTransaction
    cases ht : s.Transactions.lookup h <;> simp

/-- C15: for every world state `s` and transaction `tx`, `InsertTransaction` returns the
error `transaction exists` if and only if `tx.Hash()` is already a key of
`s.Transactions`, and in that case the state after the call is `s` itself, so the stored
transaction is not overwritten. -/
theorem InsertTransaction_exists_iff [DecidableEq Hash] (hashOf : Transaction → Hash)
    (s : WorldState Hash Block Collection Transaction) (tx : Transaction) :
    (((s.InsertTransaction hashOf tx).map Prod.snd = some (some "transaction exists"))
      ↔ (s.Transactions.lookup (hashOf tx)).isSome = true)
    ∧ ((s.Transactions.lookup (hashOf tx)).isSome = true →
        s.InsertTransaction hashOf tx = some (s, some "transaction exists"))
    ∧ (∀ stored, s.Transactions.lookup (hashOf tx) = some stored →
        ∀ s', s.InsertTransaction hashOf tx = some (s', some "transaction exists") →
          s'.Transactions.lookup (hashOf tx) = some stored) := by
  unfold WorldState.InsertTransaction
  cases hl : s.Transactions.lookup (hashOf tx) with
  | some stored =>
    refine ⟨by simp, by simp, ?_⟩
    intro stored' hs s' hs'
    simp only [Option.some.injEq, Prod.mk.injEq, and_true] at hs'
    rw [← hs', hl]
    exact hs
  | none =>
    refine ⟨?_, by simp, by simp⟩
    cases ha : s.Transactions.assign (hashOf tx) tx <;> simp

/-- C15 on the sample state: transaction 7 is stored, and inserting it again returns the
error and the same state. -/
theorem InsertTransaction_exists_iff_witness :
    (sampleState.Transactions.lookup (id 7)).isSome = true
    ∧ sampleState.InsertTransaction id 7 = some (sampleState, some "transaction exists") :=
  ⟨rfl, (InsertTransaction_exists_iff id sampleState 7).2.1 rfl⟩

end Data

/-! ### Flow client: `convertAccessAddrFromState` -/

namespace Common

/-- The first piece of `strings.Split` is what comes before the first separator. -/
theorem stringsSplit_headD (sep : Char) (s : GoString) :
    (stringsSplit sep s).headD [] = s.takeWhile (fun c => decide (c ≠ sep)) := by
  induction s with
  | nil => rfl
  | cons c rest ih =>
    unfold stringsSplit
    by_cases hc : c = sep
    · simp [hc]
    · rw [if_neg hc, List.takeWhile_cons_of_pos (by simpa using hc), ← ih]
      cases stringsSplit sep rest <;> rfl

/-- On a host without `:` followed by `:` and anything, the result is the host followed by
`:` and the API port. -/
theorem convertAccessAddrFromState_of_host (host rest : GoString) (insecureAccessAPI : Bool)
    (hhost : ':' ∉ host) :
    convertAccessAddrFromState (host ++ ':' :: rest) insecureAccessAPI
      = host ++ (':' :: (if insecureAccessAPI then DefaultAccessAPIPort
          else DefaultAccessAPISecurePort)) := by
  have htake : (host ++ ':' :: rest).takeWhile (fun c => decide (c ≠ ':')) = host := by
    induction host with
    | nil => simp
    | cons c cs ih =>
      have hc : c ≠ ':' := fun h => hhost (h ▸ List.mem_cons_self _ _)
      have hcs : ':' ∉ cs := fun h => hhost (List.mem_cons_of_mem _ h)
      rw [List.cons_append, List.takeWhile_cons_of_pos (by simpa using hc), ih hcs]
  unfold convertAccessAddrFromState
  rw [stringsSplit_headD, htake]
  cases insecureAccessAPI <;> rfl

/-- C16, evaluated on the code: the address `[::1]:3569` is the host part `[::1]` followed
by `:` and the port `3569`, which contains no `:`, and the result for the insecure API is
`[:9000`, not the host part followed by `:9000`; the result is the host part followed by
the port of the API whenever the host part contains no `:`. -/
theorem convertAccessAddrFromState_first_colon :
    ("[::1]:3569".toList = "[::1]".toList ++ ':' :: "3569".toList ∧ ':' ∉ "3569".toList)
    ∧ convertAccessAddrFromState "[::1]:3569".toList true = "[:9000".toList
    ∧ convertAccessAddrFromState "[::1]:3569".toList true ≠ "[::1]".toList ++ ":9000".toList
    ∧ convertAccessAddrFromState "[::1]:3569".toList false = "[:9001".toList
    ∧ (∀ (host port : GoString) (insecureAccessAPI : Bool), ':' ∉ host →
        convertAccessAddrFromState (host ++ ':' :: port) insecureAccessAPI
          = host ++ (if insecureAccessAPI then ":9000".toList else ":9001".toList)) := by
  refine ⟨⟨by decide, by decide⟩, by decide, by decide, by decide, ?_⟩
  intro host port insecureAccessAPI hhost
  rw [convertAccessAddrFromState_of_host host port insecureAccessAPI hhost]
  cases insecureAccessAPI <;> rfl

end Common
